import Mathlib

/-!
Verification of the JSON-document assembly and body-capture engine of the
akita-nginx-module (src/akita_client.c, src/ngx_http_akita_module.c).

Strings are modelled as lists of byte values (`List Nat`); the nginx buffer
chain of a JSON document is a list of fixed-capacity segments.  Pool
allocations are modelled by an explicit oracle (`allocs : List Bool`) that
yields the outcome of each successive allocation; an empty oracle means every
allocation succeeds.  Machine counters (`content_length`, body-size
accumulators) are modelled as `Nat`; sizes in every theorem stay far below
2^64, where the C `size_t`/`ngx_uint_t` arithmetic coincides with `Nat`.
-/

namespace Akita

/-- ASCII bytes of a Lean string literal (used for the fixed JSON keys). -/
def bytes (s : String) : List Nat := s.data.map Char.toNat

/-! ## ngx_escape_json (src/core/ngx_string.c), as used by the writer -/

/-- Hex digit used by `ngx_escape_json` for the low nibble of a control
character: `'0' + ch` for `ch < 10`, else `'A' + ch - 10`. -/
def hexDigitByte (n : Nat) : Nat := if n < 10 then 48 + n else 65 + n - 10

/-- Bytes `ngx_escape_json` emits for one input byte. -/
def escapeChar (c : Nat) : List Nat :=
  if c = 92 ∨ c = 34 then [92, c]
  else if c ≤ 31 then
    if c = 10 then [92, 110]
    else if c = 13 then [92, 114]
    else if c = 9 then [92, 116]
    else if c = 8 then [92, 98]
    else if c = 12 then [92, 102]
    else [92, 117, 48, 48, 48 + c / 16, hexDigitByte (c % 16)]
  else [c]

/-- `ngx_escape_json(dst, src, len)`: the escaped output bytes. -/
def escapeJson (s : List Nat) : List Nat := (s.map escapeChar).flatten

/-- Extra bytes escaping one byte adds (`ngx_escape_json(NULL, ...)` counting
pass, per byte). -/
def escapeCharDelta (c : Nat) : Nat :=
  if c = 92 ∨ c = 34 then 1
  else if c ≤ 31 then
    if c = 10 ∨ c = 13 ∨ c = 9 ∨ c = 8 ∨ c = 12 then 1 else 5
  else 0

/-- `ngx_escape_json(NULL, src, len)`: number of extra bytes escaping adds. -/
def escapeDelta (s : List Nat) : Nat := (s.map escapeCharDelta).sum

/-! ## json_data_t: the growable buffer chain (akita_client.c lines 11-17) -/

/-- One `ngx_buf_t` in the output chain: its capacity (`end - start`) and the
bytes written into it so far (`pos .. last`). -/
structure Seg where
  cap : Nat
  data : List Nat
deriving Repr, DecidableEq

/-- `json_data_t`.  `segsRev` holds the chain segments with the chain *tail*
(the segment currently written into) at the head of the list.  `allocs` is
the pool-allocation oracle: each allocation pops one outcome ([] = all
succeed). -/
structure JsonData where
  segsRev : List Seg
  content_length : Nat
  oom : Bool
  allocs : List Bool
deriving Repr, DecidableEq

/-- `json_initial_size` (akita_client.c line 50). -/
def json_initial_size : Nat := 4096

/-- `json_alloc`: one fresh segment of the initial size, zero length.  (The
allocation of the `json_data_t` itself and of the first chain buffer are
assumed to succeed; their failure makes the caller abort before any writer
operation runs.) -/
def json_alloc (allocs : List Bool) : JsonData :=
  { segsRev := [⟨json_initial_size, []⟩], content_length := 0,
    oom := false, allocs := allocs }

/-- Pop one allocation outcome from the oracle; empty oracle = success. -/
def popAlloc (j : JsonData) : JsonData × Bool :=
  match j.allocs with
  | [] => (j, true)
  | b :: rest => ({ j with allocs := rest }, b)

/-- `curr_buf->last + size < curr_buf->end` test of `json_ensure_space`:
does `size` fit (strictly) in the free space of the tail segment? -/
def segFits (j : JsonData) (size : Nat) : Bool :=
  match j.segsRev with
  | [] => false
  | s :: _ => s.data.length + size < s.cap

/-- `json_ensure_space` (akita_client.c lines 81-113): keep the tail segment
if the bytes fit, otherwise append a fresh segment of size
`max size json_initial_size`; on allocation failure set `oom` and report
failure (`false` plays the role of the NULL return). -/
def json_ensure_space (j : JsonData) (size : Nat) : JsonData × Bool :=
  if segFits j size then (j, true)
  else
    let p := popAlloc j
    if p.2 then
      let cap := if size > json_initial_size then size else json_initial_size
      ({ p.1 with segsRev := ⟨cap, []⟩ :: p.1.segsRev }, true)
    else
      ({ p.1 with oom := true }, false)

/-- Append bytes to the tail segment (the caller writing through a pointer
returned by `json_ensure_space` and advancing `buf->last`). -/
def pushRaw (j : JsonData) (bs : List Nat) : JsonData :=
  match j.segsRev with
  | [] => j
  | s :: rest => { j with segsRev := ⟨s.cap, s.data ++ bs⟩ :: rest }

/-- `j->content_length += n`. -/
def addLen (j : JsonData) (n : Nat) : JsonData :=
  { j with content_length := j.content_length + n }

/-- The bytes of the whole document, in chain order. -/
def docBytes (j : JsonData) : List Nat := (j.segsRev.reverse.map Seg.data).flatten

/-- Total bytes stored across all chain segments. -/
def storedLen (j : JsonData) : Nat := (j.segsRev.map (fun s => s.data.length)).sum

/-! ## Writer operations (akita_client.c lines 119-214) -/

/-- `json_write_char` (lines 119-127). -/
def json_write_char (j : JsonData) (c : Nat) : JsonData :=
  let p := json_ensure_space j 1
  if p.2 then addLen (pushRaw p.1 [c]) 1 else p.1

/-- `json_write_string_literal` (lines 133-148): a single reservation of
`escape_delta + len + 2` bytes, then quote, escaped bytes, quote;
`content_length` is advanced by the reserved size. -/
def json_write_string_literal (j : JsonData) (str : List Nat) : JsonData :=
  let sz := escapeDelta str + str.length + 2
  let p := json_ensure_space j sz
  if p.2 then addLen (pushRaw p.1 ([34] ++ escapeJson str ++ [34])) sz else p.1

/-- `json_snprintf` (lines 151-164): reserve `max_len`, write the formatted
bytes (`ngx_vslprintf` stops at the end of the reservation, hence
`out.take max_len`), advance `content_length` by the bytes written. -/
def json_snprintf (j : JsonData) (max_len : Nat) (out : List Nat) : JsonData :=
  let p := json_ensure_space j max_len
  if p.2 then addLen (pushRaw p.1 (out.take max_len)) (out.take max_len).length
  else p.1

/-- Decimal rendering of an unsigned integer, as `ngx_vslprintf`'s `%ud`
produces it (most significant digit first, `"0"` for zero). -/
def decimalBytes (n : Nat) : List Nat :=
  if n = 0 then [48] else ((Nat.digits 10 n).map (fun d => 48 + d)).reverse

/-- `json_write_uint_property` (lines 168-173): `"key":n` with a 20-byte
reservation for the decimal. -/
def json_write_uint_property (j : JsonData) (key : List Nat) (n : Nat) : JsonData :=
  json_snprintf (json_write_char (json_write_string_literal j key) 58) 20
    (decimalBytes n)

/-- `json_kv_string_t` (lines 29-33). -/
structure KvString where
  key : List Nat
  value : List Nat
  omitted : Bool
deriving Repr, DecidableEq

/-- Loop body of `json_write_kv_strings` (lines 179-196): stop at an empty
key (the sentinel), skip omitted entries, write a comma before every pair but
the first one written. -/
def json_write_kv_strings_aux (j : JsonData) (need_comma : Bool) :
    List KvString → JsonData
  | [] => j
  | kv :: rest =>
    if kv.key.length = 0 then j
    else if kv.omitted then json_write_kv_strings_aux j need_comma rest
    else
      let j1 := if need_comma then json_write_char j 44 else j
      let j2 := json_write_string_literal j1 kv.key
      let j3 := json_write_char j2 58
      let j4 := json_write_string_literal j3 kv.value
      json_write_kv_strings_aux j4 true rest

/-- `json_write_kv_strings` (lines 179-196). -/
def json_write_kv_strings (j : JsonData) (kvs : List KvString) : JsonData :=
  json_write_kv_strings_aux j false kvs

/-! ## Timestamps (ngx_gmtime from src/core/ngx_times.c, and
json_write_time_literal, akita_client.c lines 205-214) -/

/-- The fields of `ngx_tm_t` that the time literal uses. -/
structure NgxTm where
  year : Nat
  mon : Nat
  mday : Nat
  hour : Nat
  minute : Nat
  sec : Nat
deriving Repr, DecidableEq

/-- Month/day step of `ngx_gmtime` once `yday ≥ 0` is established. -/
def gmMonth (year yday : Nat) : NgxTm :=
  let mon := (yday + 31) * 10 / 306
  let mday := yday - (367 * mon / 12 - 30) + 1
  if yday ≥ 306 then ⟨year + 1, mon - 10, mday, 0, 0, 0⟩
  else ⟨year, mon + 2, mday, 0, 0, 0⟩

/-- `ngx_gmtime(t, tm)` for `t ≥ 0` (the C code clamps negative times to 0,
and `time_t` is nonnegative here). -/
def ngx_gmtime (t : Nat) : NgxTm :=
  let days := t / 86400
  let sec0 := t % 86400
  let hour := sec0 / 3600
  let sec1 := sec0 % 3600
  let minute := sec1 / 60
  let sec := sec1 % 60
  let days2 := days + 719468
  let year := (days2 + 2) * 400 / 146097
  let ydayI : Int :=
    (days2 : Int) - (365 * year + year / 4 - year / 100 + year / 400 : Nat)
  let md :=
    if ydayI < 0 then
      let leap : Nat :=
        if year % 4 = 0 ∧ (year % 100 ≠ 0 ∨ year % 400 = 0) then 1 else 0
      gmMonth (year - 1) (365 + leap + ydayI).toNat
    else
      gmMonth year ydayI.toNat
  { md with hour := hour, minute := minute, sec := sec }

/-- Left-pad a decimal to `width` (`ngx_vslprintf` width handling, with `'0'`
or `' '` as the pad byte). -/
def padNum (padZero : Bool) (width : Nat) (n : Nat) : List Nat :=
  List.replicate (width - (decimalBytes n).length) (if padZero then 48 else 32)
    ++ decimalBytes n

/-- The bytes `ngx_vslprintf` produces for the format
`"\x22%4d-%02d-%02dT%02d:%02d:%02d.%06dZ\x22"` before truncation. -/
def timeFormatBytes (sec usec : Nat) : List Nat :=
  [34] ++ padNum false 4 (ngx_gmtime sec).year ++ [45]
    ++ padNum true 2 (ngx_gmtime sec).mon ++ [45]
    ++ padNum true 2 (ngx_gmtime sec).mday ++ [84]
    ++ padNum true 2 (ngx_gmtime sec).hour ++ [58]
    ++ padNum true 2 (ngx_gmtime sec).minute ++ [58]
    ++ padNum true 2 (ngx_gmtime sec).sec ++ [46]
    ++ padNum true 6 usec ++ [90, 34]

/-- `format.len` for `"2006-01-02T15:04:05.999999Z"` with its quotes. -/
def time_format_len : Nat := 29

/-- `json_write_time_literal` (lines 205-214). -/
def json_write_time_literal (j : JsonData) (sec usec : Nat) : JsonData :=
  json_snprintf j time_format_len (timeFormatBytes sec usec)

/-! ## Bounded body capture: json_escape_buf (akita_client.c lines 309-376) -/

/-- An `ngx_buf_t` fed to the capture: in-memory data, a file-backed range
(with the outcome `ngx_read_file` would produce and the uninitialized bytes
of the scratch allocation), or a special buffer that is neither (sentinel).
The `lastBuf` field is the buffer's `last_buf` flag. -/
inductive NgxBuf where
  | mem (data : List Nat) (lastBuf : Bool)
  | file (size : Nat) (readResult : Except Unit (List Nat)) (junk : List Nat)
      (lastBuf : Bool)
  | special (lastBuf : Bool)
deriving Repr

/-- `ngx_buf_size(buf)`. -/
def bufSize : NgxBuf → Nat
  | .mem data _ => data.length
  | .file size _ _ _ => size
  | .special _ => 0

/-- The buffer's `last_buf` flag. -/
def bufIsLast : NgxBuf → Bool
  | .mem _ l => l
  | .file _ _ _ l => l
  | .special l => l

/-- Result of `json_escape_buf`: the updated document, the updated
`*total_size`, and whether the call returned `NGX_OK`. -/
structure EscapeResult where
  j : JsonData
  total : Nat
  ok : Bool
deriving Repr, DecidableEq

/-- The contents of the scratch buffer after `ngx_read_file` delivered `rd`:
the bytes read, then whatever the uninitialized remainder holds, cut to the
`ulen` bytes the code goes on to escape. -/
def scratchContents (rd junk : List Nat) (ulen : Nat) : List Nat :=
  (rd ++ junk ++ List.replicate ulen 0).take ulen

/-- Escaping step shared by the memory and file branches: count the delta,
reserve `ulen + delta`, write the escaped bytes, advance `content_length`
by `ulen + delta`. -/
def escapeWrite (j : JsonData) (total1 : Nat) (raw : List Nat) (ulen : Nat) :
    EscapeResult :=
  let delta := escapeDelta raw
  let p := json_ensure_space j (ulen + delta)
  if p.2 then ⟨addLen (pushRaw p.1 (escapeJson raw)) (ulen + delta), total1, true⟩
  else ⟨p.1, total1, false⟩

/-- `json_escape_buf` (lines 309-376).  If the accumulator already reached
`max_size`, only account the chunk's size.  Otherwise escape the first
`min (bufSize buf) (max_size - total_size)` bytes; file-backed chunks first
allocate a scratch buffer (one oracle pop) and read synchronously, failing
only when the read itself fails (a short read is not detected). -/
def json_escape_buf (j : JsonData) (max_size total_size : Nat) (buf : NgxBuf) :
    EscapeResult :=
  if total_size ≥ max_size then ⟨j, total_size + bufSize buf, true⟩
  else
    let len0 := bufSize buf
    let ulen := if total_size + len0 > max_size then max_size - total_size else len0
    let total1 := total_size + len0
    match buf with
    | .mem data _ => escapeWrite j total1 (data.take ulen) ulen
    | .file _ rr junk _ =>
      let p := popAlloc j
      if p.2 then
        match rr with
        | .error _ => ⟨p.1, total1, false⟩
        | .ok rd => escapeWrite p.1 total1 (scratchContents rd junk ulen) ulen
      else ⟨p.1, total1, false⟩
    | .special l => ⟨j, total1, l⟩

/-! ## Request document (akita_client.c lines 381-565) -/

/-- Loop of `ngx_akita_write_body` over `r->request_body->bufs`, followed by
the closing quote and the conditional `"truncated"` property (lines
397-411).  An escape failure sets `j->oom` and aborts. -/
def write_body_loop (j : JsonData) (max_size total : Nat) :
    List NgxBuf → JsonData
  | [] =>
    let j2 := json_write_char j 34
    if total > max_size then
      json_write_uint_property (json_write_char j2 44) (bytes "truncated") total
    else j2
  | c :: rest =>
    let r := json_escape_buf j max_size total c
    if r.ok then write_body_loop r.j max_size r.total rest
    else { r.j with oom := true }

/-- `ngx_akita_write_body` (lines 381-411): `"body":"` then the captured
chunks, closing quote, conditional `truncated`.  A NULL `request_body` is an
immediate empty literal. -/
def ngx_akita_write_body (j : JsonData) (request_body : Option (List NgxBuf))
    (max_size : Nat) : JsonData :=
  let j1 := json_write_char (json_write_char
    (json_write_string_literal j (bytes "body")) 58) 34
  match request_body with
  | none => json_write_char j1 34
  | some chunks => write_body_loop j1 max_size 0 chunks

/-- `ngx_akita_write_headers_list` inner pair
`{"header":k,"value":v}` (lines 286-293). -/
def write_one_header (j : JsonData) (k v : List Nat) : JsonData :=
  json_write_char (json_write_kv_strings (json_write_char j 123)
    [⟨bytes "header", k, false⟩, ⟨bytes "value", v, false⟩]) 125

/-- Loop of `ngx_akita_write_headers_list` over the header list parts, with
the comma-before-each-pair-but-the-first rule (lines 279-296). -/
def write_headers_loop (j : JsonData) (need_comma : Bool) :
    List (List Nat × List Nat) → JsonData
  | [] => j
  | h :: rest =>
    let j1 := if need_comma then json_write_char j 44 else j
    write_headers_loop (write_one_header j1 h.1 h.2) true rest

/-- `ngx_akita_write_headers_list` (lines 269-298). -/
def ngx_akita_write_headers_list (j : JsonData)
    (headers : List (List Nat × List Nat)) : JsonData :=
  json_write_char
    (write_headers_loop
      (json_write_char (json_write_char
        (json_write_string_literal j (bytes "headers")) 58) 91)
      false headers)
    93

/-- `ngx_akita_send_request_body` (lines 486-565), up to the point where the
finished chain is handed to `ngx_akita_send_api_call`: the assembled request
event document, or an error when the request id is unavailable or the
document hit out-of-memory.  `host = none` models `r->headers_in.host ==
NULL`; `internal` models `r->internal`. -/
def ngx_akita_send_request_body (requestId : Option (List Nat))
    (method uri : List Nat) (host : Option (List Nat)) (internal : Bool)
    (headers : List (List Nat × List Nat))
    (startSec startUsec arrivedSec arrivedUsec : Nat)
    (request_body : Option (List NgxBuf)) (max_body_size : Nat)
    (allocs : List Bool) : Except Unit JsonData :=
  match requestId with
  | none => Except.error ()
  | some rid =>
    let string_fields : List KvString :=
      [⟨bytes "request_id", rid, false⟩,
       ⟨bytes "method", method, false⟩,
       ⟨bytes "path", uri, false⟩,
       ⟨bytes "host", host.getD [], host.isNone⟩,
       ⟨bytes "nginx_internal", bytes "true", !internal⟩]
    let j1 := json_write_char (json_alloc allocs) 123
    let j2 := json_write_char (json_write_kv_strings j1 string_fields) 44
    let j3 := json_write_char (ngx_akita_write_headers_list j2 headers) 44
    let j4 := json_write_char (json_write_time_literal (json_write_char
      (json_write_string_literal j3 (bytes "request_start")) 58)
      startSec startUsec) 44
    let j5 := json_write_char (json_write_time_literal (json_write_char
      (json_write_string_literal j4 (bytes "request_arrived")) 58)
      arrivedSec arrivedUsec) 44
    let j6 := json_write_char
      (ngx_akita_write_body j5 request_body max_body_size) 125
    if j6.oom then Except.error () else Except.ok j6

/-! ## Response side (akita_client.c lines 778-836) and the body filter
(ngx_http_akita_module.c lines 455-512) -/

/-- The per-request context fields the response path uses
(`ngx_http_akita_ctx_t`). -/
structure AkitaCtx where
  enabled : Bool
  response_json : JsonData
  response_body_size : Nat
  response_complete_sec : Nat
  response_complete_usec : Nat
deriving Repr, DecidableEq

/-- `ngx_akita_append_response_body` (lines 778-797): feed one buffer through
`json_escape_buf` into the open response document; error when the escape
fails or the document's sticky OOM flag is (or ends up) set. -/
def ngx_akita_append_response_body (ctx : AkitaCtx) (max_body_size : Nat)
    (buf : NgxBuf) : AkitaCtx × Bool :=
  let r := json_escape_buf ctx.response_json max_body_size
    ctx.response_body_size buf
  let ctx1 := { ctx with response_json := r.j, response_body_size := r.total }
  if !r.ok then (ctx1, false)
  else if r.j.oom then (ctx1, false)
  else (ctx1, true)

/-- `ngx_akita_finish_response_body` (lines 799-836), up to the handoff to
`ngx_akita_send_api_call`: closing quote and comma, conditional `truncated`
property, `response_complete` timestamp, closing brace; fails when the
document hit out-of-memory. -/
def ngx_akita_finish_response_body (ctx : AkitaCtx) (max_body_size : Nat) :
    JsonData × Bool :=
  let j1 := json_write_char (json_write_char ctx.response_json 34) 44
  let j2 :=
    if ctx.response_body_size > max_body_size then
      json_write_char
        (json_write_uint_property j1 (bytes "truncated") ctx.response_body_size)
        44
    else j1
  let j3 := json_write_char (json_write_time_literal (json_write_char
    (json_write_string_literal j2 (bytes "response_complete")) 58)
    ctx.response_complete_sec ctx.response_complete_usec) 125
  (j3, !j3.oom)

/-- Location configuration fields the filter uses. -/
structure LocConf where
  enabled : Bool
  max_body_size : Nat
deriving Repr, DecidableEq

/-- Loop of `ngx_http_akita_response_body_filter` over the incoming chain
(ngx_http_akita_module.c lines 476-509): append each buffer, disabling the
session and stopping on failure; on the `last_buf` buffer record the
completion time, allocate the callback (`cbAllocOk`), finish and dispatch
the document, disabling the session on any failure. -/
def response_body_filter_loop (conf : LocConf) (ctx : AkitaCtx)
    (cbAllocOk : Bool) (nowSec nowUsec : Nat) : List NgxBuf → AkitaCtx
  | [] => ctx
  | buf :: rest =>
    let r := ngx_akita_append_response_body ctx conf.max_body_size buf
    if !r.2 then { r.1 with enabled := false }
    else if bufIsLast buf then
      let ctx2 := { r.1 with
        response_complete_sec := nowSec
        response_complete_usec := nowUsec }
      if !cbAllocOk then { ctx2 with enabled := false }
      else
        let f := ngx_akita_finish_response_body ctx2 conf.max_body_size
        let ctx3 := { ctx2 with response_json := f.1 }
        if f.2 then ctx3 else { ctx3 with enabled := false }
    else response_body_filter_loop conf r.1 cbAllocOk nowSec nowUsec rest

/-- `ngx_http_akita_response_body_filter` (lines 455-512).  Returns the
updated module context and the chain passed to the next body filter; every
return path forwards the incoming chain unchanged. -/
def ngx_http_akita_response_body_filter (isMain : Bool)
    (conf : Option LocConf) (ctx : Option AkitaCtx) (cbAllocOk : Bool)
    (nowSec nowUsec : Nat) (chain : List NgxBuf) :
    Option AkitaCtx × List NgxBuf :=
  if !isMain then (ctx, chain)
  else
    match conf with
    | none => (ctx, chain)
    | some c =>
      if !c.enabled then (ctx, chain)
      else
        match ctx with
        | none => (none, chain)
        | some cx =>
          if !cx.enabled then (some cx, chain)
          else
            (some (response_body_filter_loop c cx cbAllocOk nowSec nowUsec
              chain), chain)

/-! ## Pure renderings of what the writer emits (used to state the theorems) -/

/-- The bytes a successful `json_write_string_literal` appends. -/
def emitStringLit (s : List Nat) : List Nat := [34] ++ escapeJson s ++ [34]

/-- The bytes a successful `json_write_uint_property` appends, when the
decimal fits the 20-byte reservation. -/
def emitUintProp (key : List Nat) (n : Nat) : List Nat :=
  emitStringLit key ++ [58] ++ decimalBytes n

/-- The bytes a successful `json_write_time_literal` appends. -/
def emitTime (sec usec : Nat) : List Nat :=
  (timeFormatBytes sec usec).take time_format_len

/-- One rendered key/value pair, `"k":"v"`. -/
def renderPair (p : List Nat × List Nat) : List Nat :=
  emitStringLit p.1 ++ [58] ++ emitStringLit p.2

/-- Rendered pairs separated by exactly one comma: no leading, trailing or
doubled commas. -/
def renderPairs : List (List Nat × List Nat) → List Nat
  | [] => []
  | [p] => renderPair p
  | p :: rest => renderPair p ++ [44] ++ renderPairs rest

/-- The entries of a kv list that actually get written: those before the
first sentinel (empty key) that are not flagged omitted. -/
def activePairs : List KvString → List (List Nat × List Nat)
  | [] => []
  | kv :: rest =>
    if kv.key.length = 0 then []
    else if kv.omitted then activePairs rest
    else (kv.key, kv.value) :: activePairs rest

/-- The bytes `json_write_kv_strings_aux` appends (mirrors its control
flow). -/
def emitKvAux (need_comma : Bool) : List KvString → List Nat
  | [] => []
  | kv :: rest =>
    if kv.key.length = 0 then []
    else if kv.omitted then emitKvAux need_comma rest
    else
      (if need_comma then [44] else []) ++ renderPair (kv.key, kv.value)
        ++ emitKvAux true rest

/-- One rendered header entry `{"header":k,"value":v}`. -/
def renderHeaderItem (h : List Nat × List Nat) : List Nat :=
  [123] ++ renderPairs [(bytes "header", h.1), (bytes "value", h.2)] ++ [125]

/-- Rendered header entries separated by exactly one comma. -/
def renderHeaderItems : List (List Nat × List Nat) → List Nat
  | [] => []
  | [h] => renderHeaderItem h
  | h :: rest => renderHeaderItem h ++ [44] ++ renderHeaderItems rest

/-- The bytes `write_headers_loop` appends (mirrors its control flow). -/
def emitHeadersAux (need_comma : Bool) : List (List Nat × List Nat) → List Nat
  | [] => []
  | h :: rest =>
    (if need_comma then [44] else []) ++ renderHeaderItem h
      ++ emitHeadersAux true rest

/-- The whole `"headers":[...]` emission. -/
def renderHeaders (hs : List (List Nat × List Nat)) : List Nat :=
  emitStringLit (bytes "headers") ++ [58, 91] ++ renderHeaderItems hs ++ [93]

/-- The raw source bytes one in-memory chunk contributes to the body
literal: nothing once the accumulator reached the cap, otherwise the chunk
cut to the remaining budget. -/
def memPiece (max_size total : Nat) (d : List Nat) : List Nat :=
  if total ≥ max_size then []
  else d.take (if total + d.length > max_size then max_size - total else d.length)

/-- The raw source bytes a whole list of in-memory chunks contributes. -/
def capturedOf (max_size total : Nat) : List (List Nat) → List Nat
  | [] => []
  | d :: rest => memPiece max_size total d ++ capturedOf max_size (total + d.length) rest

/-- Sum of the chunk sizes: the true total size of the body. -/
def totalOf (ds : List (List Nat)) : Nat := (ds.map List.length).sum

/-- In-memory chunk list for the given byte lists. -/
def memChunks (ds : List (List Nat)) : List NgxBuf :=
  ds.map (fun d => NgxBuf.mem d false)

/-- The bytes `write_body_loop` appends on success: the escaped captured
bytes, the closing quote, and the `"truncated"` property exactly when the
true total exceeds the cap. -/
def emitBody (max_size total : Nat) (ds : List (List Nat)) : List Nat :=
  escapeJson (capturedOf max_size total ds) ++ [34]
    ++ (if total + totalOf ds > max_size then
          [44] ++ emitUintProp (bytes "truncated") (total + totalOf ds)
        else [])

/-- The kv pairs of the request document head: always request_id, method and
path; `host` exactly when the request has a Host header; `nginx_internal`
exactly for internally-redispatched requests. -/
def reqPairs (rid method uri : List Nat) (host : Option (List Nat))
    (internal : Bool) : List (List Nat × List Nat) :=
  [(bytes "request_id", rid), (bytes "method", method), (bytes "path", uri)]
    ++ (match host with | some h => [(bytes "host", h)] | none => [])
    ++ (if internal then [(bytes "nginx_internal", bytes "true")] else [])

/-- The full request event document body, as rendered bytes. -/
def renderRequestDoc (rid method uri : List Nat) (host : Option (List Nat))
    (internal : Bool) (headers : List (List Nat × List Nat))
    (startSec startUsec arrivedSec arrivedUsec : Nat) (ds : List (List Nat))
    (max_body_size : Nat) : List Nat :=
  [123] ++ renderPairs (reqPairs rid method uri host internal) ++ [44]
    ++ renderHeaders headers ++ [44]
    ++ emitStringLit (bytes "request_start") ++ [58]
    ++ emitTime startSec startUsec ++ [44]
    ++ emitStringLit (bytes "request_arrived") ++ [58]
    ++ emitTime arrivedSec arrivedUsec ++ [44]
    ++ emitStringLit (bytes "body") ++ [58, 34]
    ++ emitBody max_body_size 0 ds ++ [125]

/-! ## A JSON string-literal / object-member parser, to state that the
emitted text is valid JSON and round-trips to the source bytes -/

/-- Value of one hex digit byte. -/
def hexVal (d : Nat) : Option Nat :=
  if 48 ≤ d ∧ d ≤ 57 then some (d - 48)
  else if 65 ≤ d ∧ d ≤ 70 then some (d - 55)
  else if 97 ≤ d ∧ d ≤ 102 then some (d - 87)
  else none

/-- Decode a short JSON escape character. -/
def unescapeShort (e : Nat) : Option Nat :=
  if e = 110 then some 10
  else if e = 114 then some 13
  else if e = 116 then some 9
  else if e = 98 then some 8
  else if e = 102 then some 12
  else if e = 34 then some 34
  else if e = 92 then some 92
  else none

/-- Parse the body of a JSON string literal up to (and consuming) the
closing quote; returns the decoded bytes and the remaining input. -/
def parseStringLitAux : List Nat → Option (List Nat × List Nat)
  | [] => none
  | c :: rest =>
    if c = 34 then some ([], rest)
    else if c = 92 then
      match rest with
      | [] => none
      | e :: rest2 =>
        if e = 117 then
          match rest2 with
          | h1 :: h2 :: h3 :: h4 :: rest3 =>
            match hexVal h1, hexVal h2, hexVal h3, hexVal h4 with
            | some a, some b, some c2, some d2 =>
              (parseStringLitAux rest3).map
                (fun p => ((((a * 16 + b) * 16 + c2) * 16 + d2) :: p.1, p.2))
            | _, _, _, _ => none
          | _ => none
        else
          match unescapeShort e with
          | some v => (parseStringLitAux rest2).map (fun p => (v :: p.1, p.2))
          | none => none
    else if c < 32 then none
    else (parseStringLitAux rest).map (fun p => (c :: p.1, p.2))

/-- Parse one `"k":"v"` member; returns the decoded pair and the rest. -/
def parseMember (input : List Nat) : Option ((List Nat × List Nat) × List Nat) :=
  match input with
  | 34 :: rest =>
    match parseStringLitAux rest with
    | some (k, r1) =>
      match r1 with
      | 58 :: 34 :: r2 =>
        match parseStringLitAux r2 with
        | some (v, r3) => some ((k, v), r3)
        | none => none
      | _ => none
    | none => none
  | _ => none

/-- Parse a whole comma-separated member list (the fuel bounds the number of
members). -/
def parseMembersFuel : Nat → List Nat → Option (List (List Nat × List Nat))
  | _, [] => some []
  | 0, _ :: _ => none
  | fuel + 1, a :: input =>
    match parseMember (a :: input) with
    | some (kv, rest) =>
      match rest with
      | [] => some [kv]
      | 44 :: rest2 => (parseMembersFuel fuel rest2).map (fun l => kv :: l)
      | _ => none
    | none => none

/-! ## Writer operations as data, for the cross-cutting invariants -/

/-- One public writer operation on a JSON document. -/
inductive WriterOp where
  | rawChar (c : Nat)
  | stringLit (s : List Nat)
  | uintProp (key : List Nat) (n : Nat)
  | timeLit (sec usec : Nat)
  | kvList (kvs : List KvString)
  | fmt (max_len : Nat) (out : List Nat)
  | escapeBuf (max_size total : Nat) (buf : NgxBuf)

/-- Apply one writer operation to a document. -/
def applyOp (j : JsonData) : WriterOp → JsonData
  | .rawChar c => json_write_char j c
  | .stringLit s => json_write_string_literal j s
  | .uintProp key n => json_write_uint_property j key n
  | .timeLit sec usec => json_write_time_literal j sec usec
  | .kvList kvs => json_write_kv_strings j kvs
  | .fmt max_len out => json_snprintf j max_len out
  | .escapeBuf max_size total buf => (json_escape_buf j max_size total buf).j

/-- The accounting invariant: `content_length` equals the bytes actually
stored across the chain segments. -/
def lengthInv (j : JsonData) : Prop := j.content_length = storedLen j

/-! # Theorems -/

/-! ## Escaping basics -/

lemma escapeChar_length (c : Nat) :
    (escapeChar c).length = 1 + escapeCharDelta c := by
  unfold escapeChar escapeCharDelta
  split_ifs <;> simp_all

lemma escapeJson_nil : escapeJson [] = [] := rfl

lemma escapeJson_cons (c : Nat) (s : List Nat) :
    escapeJson (c :: s) = escapeChar c ++ escapeJson s := by
  simp [escapeJson]

lemma escapeJson_append (a b : List Nat) :
    escapeJson (a ++ b) = escapeJson a ++ escapeJson b := by
  simp [escapeJson]

lemma escapeDelta_cons (c : Nat) (s : List Nat) :
    escapeDelta (c :: s) = escapeCharDelta c + escapeDelta s := by
  simp [escapeDelta]

lemma escapeJson_length (s : List Nat) :
    (escapeJson s).length = s.length + escapeDelta s := by
  induction s with
  | nil => rfl
  | cons c s ih =>
    simp [escapeJson_cons, escapeDelta_cons, escapeChar_length, ih]
    omega

/-! ## Buffer-chain basics -/

@[simp] lemma pushRaw_content_length (j : JsonData) (bs : List Nat) :
    (pushRaw j bs).content_length = j.content_length := by
  unfold pushRaw; cases j.segsRev <;> simp

@[simp] lemma pushRaw_allocs (j : JsonData) (bs : List Nat) :
    (pushRaw j bs).allocs = j.allocs := by
  unfold pushRaw; cases j.segsRev <;> simp

@[simp] lemma pushRaw_oom (j : JsonData) (bs : List Nat) :
    (pushRaw j bs).oom = j.oom := by
  unfold pushRaw; cases j.segsRev <;> simp

@[simp] lemma addLen_content_length (j : JsonData) (n : Nat) :
    (addLen j n).content_length = j.content_length + n := rfl

@[simp] lemma addLen_allocs (j : JsonData) (n : Nat) :
    (addLen j n).allocs = j.allocs := rfl

@[simp] lemma addLen_oom (j : JsonData) (n : Nat) :
    (addLen j n).oom = j.oom := rfl

@[simp] lemma addLen_segsRev (j : JsonData) (n : Nat) :
    (addLen j n).segsRev = j.segsRev := rfl

@[simp] lemma docBytes_addLen (j : JsonData) (n : Nat) :
    docBytes (addLen j n) = docBytes j := rfl

@[simp] lemma storedLen_addLen (j : JsonData) (n : Nat) :
    storedLen (addLen j n) = storedLen j := rfl

lemma docBytes_pushRaw (j : JsonData) (bs : List Nat) (h : j.segsRev ≠ []) :
    docBytes (pushRaw j bs) = docBytes j ++ bs := by
  unfold docBytes pushRaw
  cases hs : j.segsRev with
  | nil => exact absurd hs h
  | cons s rest => simp

lemma storedLen_pushRaw (j : JsonData) (bs : List Nat) (h : j.segsRev ≠ []) :
    storedLen (pushRaw j bs) = storedLen j + bs.length := by
  unfold storedLen pushRaw
  cases hs : j.segsRev with
  | nil => exact absurd hs h
  | cons s rest => simp; omega

lemma segFits_ne_nil (j : JsonData) (n : Nat) (h : segFits j n = true) :
    j.segsRev ≠ [] := by
  intro hnil
  unfold segFits at h
  rw [hnil] at h
  simp at h

/-- `json_ensure_space` under an all-success oracle: it succeeds and changes
nothing observable, leaving a nonempty chain. -/
lemma ensure_space_nil (j : JsonData) (n : Nat) (h : j.allocs = []) :
    (json_ensure_space j n).2 = true ∧
    docBytes (json_ensure_space j n).1 = docBytes j ∧
    (json_ensure_space j n).1.allocs = [] ∧
    (json_ensure_space j n).1.oom = j.oom ∧
    (json_ensure_space j n).1.content_length = j.content_length ∧
    (json_ensure_space j n).1.segsRev ≠ [] := by
  unfold json_ensure_space
  by_cases hf : segFits j n
  · simp [hf, segFits_ne_nil j n hf, h]
  · simp [hf, popAlloc, h, docBytes]

/-- `json_ensure_space` in general: content length and stored bytes never
change, the oracle only shrinks, and on success the chain is nonempty. -/
lemma ensure_space_general (j : JsonData) (n : Nat) :
    (json_ensure_space j n).1.content_length = j.content_length ∧
    storedLen (json_ensure_space j n).1 = storedLen j ∧
    ((json_ensure_space j n).2 = true → (json_ensure_space j n).1.segsRev ≠ []) := by
  unfold json_ensure_space popAlloc
  by_cases hf : segFits j n
  · simp [hf, segFits_ne_nil j n hf]
  · cases hal : j.allocs with
    | nil => simp [hf, hal, storedLen]
    | cons b rest => cases b <;> simp [hf, hal, storedLen]

/-! ## Emission under an all-success allocation oracle -/

/-- `f` appends exactly `out` to any document whose allocation oracle is
all-success, advancing `content_length` by the same count and preserving the
oracle and the OOM flag. -/
def EmitsOk (f : JsonData → JsonData) (out : List Nat) : Prop :=
  ∀ j, j.allocs = [] →
    docBytes (f j) = docBytes j ++ out ∧
    (f j).allocs = [] ∧
    (f j).oom = j.oom ∧
    (f j).content_length = j.content_length + out.length

lemma EmitsOk.comp {f g : JsonData → JsonData} {a b : List Nat}
    (hf : EmitsOk f a) (hg : EmitsOk g b) :
    EmitsOk (fun j => g (f j)) (a ++ b) := by
  intro j h
  obtain ⟨d1, a1, o1, c1⟩ := hf j h
  obtain ⟨d2, a2, o2, c2⟩ := hg (f j) a1
  refine ⟨?_, a2, by rw [o2, o1], ?_⟩
  · rw [d2, d1, List.append_assoc]
  · rw [c2, c1]; simp; omega

lemma EmitsOk.congr_out {f : JsonData → JsonData} {a b : List Nat}
    (hf : EmitsOk f a) (hab : a = b) : EmitsOk f b := hab ▸ hf

lemma EmitsOk.id : EmitsOk (fun j => j) [] := by
  intro j h; simp [h]

lemma emitsOk_write_char (c : Nat) :
    EmitsOk (fun j => json_write_char j c) [c] := by
  intro j h
  obtain ⟨h2, hd, ha, ho, hc, hne⟩ := ensure_space_nil j 1 h
  simp only [json_write_char, h2, if_true]
  refine ⟨?_, by simp [ha], by simp [ho], by simp [hc]⟩
  rw [docBytes_addLen, docBytes_pushRaw _ _ hne, hd]

lemma emitsOk_string_literal (s : List Nat) :
    EmitsOk (fun j => json_write_string_literal j s) (emitStringLit s) := by
  intro j h
  obtain ⟨h2, hd, ha, ho, hc, hne⟩ :=
    ensure_space_nil j (escapeDelta s + s.length + 2) h
  simp only [json_write_string_literal, h2, if_true]
  refine ⟨?_, by simp [ha], by simp [ho], ?_⟩
  · rw [docBytes_addLen, docBytes_pushRaw _ _ hne, hd]; rfl
  · simp [hc, emitStringLit, escapeJson_length]; omega

lemma emitsOk_snprintf (m : Nat) (out : List Nat) :
    EmitsOk (fun j => json_snprintf j m out) (out.take m) := by
  intro j h
  obtain ⟨h2, hd, ha, ho, hc, hne⟩ := ensure_space_nil j m h
  simp only [json_snprintf, h2, if_true]
  refine ⟨?_, by simp [ha], by simp [ho], by simp [hc]⟩
  rw [docBytes_addLen, docBytes_pushRaw _ _ hne, hd]

/-! ## Decimal lengths -/

lemma decimalBytes_length_le (n k : Nat) (hk : 1 ≤ k) (h : n < 10 ^ k) :
    (decimalBytes n).length ≤ k := by
  unfold decimalBytes
  by_cases hn : n = 0
  · simp [hn]; omega
  · simp only [hn, if_false, List.length_reverse, List.length_map]
    rw [Nat.digits_len 10 n (by norm_num) hn]
    have := Nat.log_lt_of_lt_pow hn h
    omega

lemma decimalBytes_length_eq (n k : Nat) (h1 : 10 ^ k ≤ n) (h2 : n < 10 ^ (k + 1)) :
    (decimalBytes n).length = k + 1 := by
  have hn : n ≠ 0 := by
    have : 1 ≤ 10 ^ k := Nat.one_le_pow k 10 (by norm_num)
    omega
  unfold decimalBytes
  simp only [hn, if_false, List.length_reverse, List.length_map]
  rw [Nat.digits_len 10 n (by norm_num) hn,
    Nat.log_eq_of_pow_le_of_lt_pow h1 h2]

lemma padNum_length (z : Bool) (w n : Nat) :
    (padNum z w n).length = max w (decimalBytes n).length := by
  simp [padNum]; omega

lemma padNum_of_ge (z : Bool) (w n : Nat) (h : w ≤ (decimalBytes n).length) :
    padNum z w n = decimalBytes n := by
  simp [padNum, Nat.sub_eq_zero_of_le h]

/-! ## EmitsOk for the composite writers -/

lemma emitsOk_uint (key : List Nat) (n : Nat)
    (h20 : (decimalBytes n).length ≤ 20) :
    EmitsOk (fun j => json_write_uint_property j key n) (emitUintProp key n) := by
  have h := ((emitsOk_string_literal key).comp (emitsOk_write_char 58)).comp
    (emitsOk_snprintf 20 (decimalBytes n))
  exact h.congr_out (by
    rw [List.take_of_length_le h20]
    simp [emitUintProp])

lemma emitsOk_time (sec usec : Nat) :
    EmitsOk (fun j => json_write_time_literal j sec usec) (emitTime sec usec) :=
  emitsOk_snprintf time_format_len (timeFormatBytes sec usec)

lemma emitsOk_kv_aux (kvs : List KvString) (nc : Bool) :
    EmitsOk (fun j => json_write_kv_strings_aux j nc kvs) (emitKvAux nc kvs) := by
  induction kvs generalizing nc with
  | nil => intro j h; simp [json_write_kv_strings_aux, emitKvAux, h]
  | cons kv rest ih =>
    by_cases hk : kv.key.length = 0
    · intro j h; simp [json_write_kv_strings_aux, emitKvAux, hk, h]
    · by_cases ho : kv.omitted = true
      · intro j h
        have := ih nc j h
        simpa [json_write_kv_strings_aux, emitKvAux, hk, ho] using this
      · have hbody : EmitsOk
            (fun j => json_write_kv_strings_aux
              (json_write_string_literal (json_write_char
                (json_write_string_literal
                  (if nc then json_write_char j 44 else j) kv.key) 58)
                kv.value) true rest)
            ((if nc then [44] else []) ++ renderPair (kv.key, kv.value)
              ++ emitKvAux true rest) := by
          have hfirst : EmitsOk (fun j => if nc then json_write_char j 44 else j)
              (if nc then [44] else []) := by
            cases nc
            · simpa using EmitsOk.id
            · simpa using emitsOk_write_char 44
          have := (((hfirst.comp (emitsOk_string_literal kv.key)).comp
            (emitsOk_write_char 58)).comp
            (emitsOk_string_literal kv.value)).comp (ih true)
          exact this.congr_out (by simp [renderPair, emitStringLit])
        intro j h
        have := hbody j h
        simpa [json_write_kv_strings_aux, emitKvAux, hk, ho] using this

lemma emitsOk_kv (kvs : List KvString) :
    EmitsOk (fun j => json_write_kv_strings j kvs) (emitKvAux false kvs) :=
  emitsOk_kv_aux kvs false

lemma bytes_header_length : (bytes "header").length = 6 := by decide

lemma bytes_value_length : (bytes "value").length = 5 := by decide

lemma emitKvAux_header_pair (k v : List Nat) :
    emitKvAux false [⟨bytes "header", k, false⟩, ⟨bytes "value", v, false⟩]
      = renderPair (bytes "header", k) ++ ([44] ++ renderPair (bytes "value", v)) := by
  simp [emitKvAux, bytes_header_length, bytes_value_length]

lemma emitsOk_one_header (k v : List Nat) :
    EmitsOk (fun j => write_one_header j k v) (renderHeaderItem (k, v)) := by
  have hkv := emitsOk_kv_aux
    [⟨bytes "header", k, false⟩, ⟨bytes "value", v, false⟩] false
  have := ((emitsOk_write_char 123).comp hkv).comp (emitsOk_write_char 125)
  exact this.congr_out (by
    rw [emitKvAux_header_pair]
    simp [renderHeaderItem, renderPairs])

lemma write_headers_loop_nil (j : JsonData) (nc : Bool) :
    write_headers_loop j nc [] = j := rfl

lemma write_headers_loop_cons (j : JsonData) (nc : Bool)
    (hd : List Nat × List Nat) (rest : List (List Nat × List Nat)) :
    write_headers_loop j nc (hd :: rest)
      = write_headers_loop
          (write_one_header (if nc then json_write_char j 44 else j) hd.1 hd.2)
          true rest := rfl

lemma emitHeadersAux_nil (nc : Bool) : emitHeadersAux nc [] = [] := rfl

lemma emitHeadersAux_cons (nc : Bool) (hd : List Nat × List Nat)
    (rest : List (List Nat × List Nat)) :
    emitHeadersAux nc (hd :: rest)
      = (if nc then [44] else []) ++ renderHeaderItem hd
          ++ emitHeadersAux true rest := rfl

lemma emitsOk_headers_loop (hs : List (List Nat × List Nat)) (nc : Bool) :
    EmitsOk (fun j => write_headers_loop j nc hs) (emitHeadersAux nc hs) := by
  induction hs generalizing nc with
  | nil =>
    intro j h
    dsimp only
    rw [write_headers_loop_nil, emitHeadersAux_nil]
    exact ⟨by simp, h, rfl, by simp⟩
  | cons hd rest ih =>
    have hfirst : EmitsOk (fun j => if nc then json_write_char j 44 else j)
        (if nc then [44] else []) := by
      cases nc
      · simpa using EmitsOk.id
      · simpa using emitsOk_write_char 44
    have hcomp := (hfirst.comp (emitsOk_one_header hd.1 hd.2)).comp (ih true)
    intro j h
    have h2 := hcomp j h
    dsimp only at h2 ⊢
    rw [write_headers_loop_cons, emitHeadersAux_cons]
    simpa using h2

lemma emitHeadersAux_render (hs : List (List Nat × List Nat)) :
    emitHeadersAux false hs = renderHeaderItems hs ∧
    emitHeadersAux true hs =
      (if hs.isEmpty then [] else [44] ++ renderHeaderItems hs) := by
  induction hs with
  | nil => exact ⟨rfl, rfl⟩
  | cons hd rest ih =>
    have h2 := ih.2
    have hf : emitHeadersAux false (hd :: rest)
        = renderHeaderItem hd ++ emitHeadersAux true rest := by
      rw [emitHeadersAux_cons]; simp
    have ht : emitHeadersAux true (hd :: rest)
        = [44] ++ (renderHeaderItem hd ++ emitHeadersAux true rest) := by
      rw [emitHeadersAux_cons]; simp
    cases rest with
    | nil => exact ⟨by simp [hf, h2, renderHeaderItems], by simp [ht, h2, renderHeaderItems]⟩
    | cons hd2 rest2 =>
      refine ⟨?_, ?_⟩
      · rw [hf, h2]
        simp [renderHeaderItems]
      · rw [ht, h2]
        simp [renderHeaderItems]

lemma emitsOk_headers_list (hs : List (List Nat × List Nat)) :
    EmitsOk (fun j => ngx_akita_write_headers_list j hs) (renderHeaders hs) := by
  have := ((((emitsOk_string_literal (bytes "headers")).comp
    (emitsOk_write_char 58)).comp (emitsOk_write_char 91)).comp
    (emitsOk_headers_loop hs false)).comp (emitsOk_write_char 93)
  exact this.congr_out (by
    simp [renderHeaders, (emitHeadersAux_render hs).1])

/-! ## Comma placement: emitted kv bytes are the comma-separated pairs -/

lemma renderPairs_cons2 (p q : List Nat × List Nat)
    (qs : List (List Nat × List Nat)) :
    renderPairs (p :: q :: qs) = renderPair p ++ [44] ++ renderPairs (q :: qs) := rfl

lemma emitKvAux_render (kvs : List KvString) :
    emitKvAux false kvs = renderPairs (activePairs kvs) ∧
    emitKvAux true kvs =
      (if (activePairs kvs).isEmpty then []
       else [44] ++ renderPairs (activePairs kvs)) := by
  induction kvs with
  | nil => exact ⟨rfl, rfl⟩
  | cons kv rest ih =>
    obtain ⟨ih1, ih2⟩ := ih
    by_cases hk : kv.key.length = 0
    · constructor <;> simp [emitKvAux, activePairs, hk, renderPairs]
    · by_cases ho : kv.omitted = true
      · constructor <;> simp [emitKvAux, activePairs, hk, ho, ih1, ih2]
      · have hfalse : emitKvAux false (kv :: rest)
            = renderPair (kv.key, kv.value) ++ emitKvAux true rest := by
          simp [emitKvAux, hk, ho]
        have htrue : emitKvAux true (kv :: rest)
            = [44] ++ (renderPair (kv.key, kv.value) ++ emitKvAux true rest) := by
          simp [emitKvAux, hk, ho]
        have hap : activePairs (kv :: rest)
            = (kv.key, kv.value) :: activePairs rest := by
          simp [activePairs, hk, ho]
        cases hps : activePairs rest with
        | nil =>
          rw [hps] at ih2
          constructor
          · rw [hfalse, hap, hps, ih2]
            simp [renderPairs]
          · rw [htrue, hap, hps, ih2]
            simp [renderPairs]
        | cons q qs =>
          rw [hps] at ih2
          constructor
          · rw [hfalse, hap, hps, ih2, renderPairs_cons2]
            simp
          · rw [htrue, hap, hps, ih2, renderPairs_cons2]
            simp

/-! ## json_escape_buf on in-memory chunks -/

/-- `json_escape_buf` always adds the chunk's true size to the accumulator,
whatever the chunk kind and whatever happens. -/
lemma json_escape_buf_total (j : JsonData) (max_size total : Nat) (buf : NgxBuf) :
    (json_escape_buf j max_size total buf).total = total + bufSize buf := by
  unfold json_escape_buf escapeWrite
  by_cases hge : total ≥ max_size
  · simp [hge]
  · cases buf with
    | mem d l => simp [hge, bufSize]; split_ifs <;> rfl
    | file size rr junk l =>
      simp only [hge, if_false]
      cases hp : (popAlloc j).2 <;> cases rr <;>
        simp [bufSize] <;> split_ifs <;> rfl
    | special l => simp [hge, bufSize]

lemma escapeWrite_spec (j : JsonData) (t : Nat) (raw : List Nat) (ulen : Nat)
    (h : j.allocs = []) (hlen : raw.length = ulen) :
    (escapeWrite j t raw ulen).ok = true ∧
    docBytes (escapeWrite j t raw ulen).j = docBytes j ++ escapeJson raw ∧
    (escapeWrite j t raw ulen).j.allocs = [] ∧
    (escapeWrite j t raw ulen).j.oom = j.oom ∧
    (escapeWrite j t raw ulen).j.content_length
      = j.content_length + (escapeJson raw).length := by
  obtain ⟨h2, hd, ha, ho, hc, hne⟩ := ensure_space_nil j (ulen + escapeDelta raw) h
  have hsel : escapeWrite j t raw ulen
      = ⟨addLen (pushRaw (json_ensure_space j (ulen + escapeDelta raw)).1
          (escapeJson raw)) (ulen + escapeDelta raw), t, true⟩ := by
    simp [escapeWrite, h2]
  rw [hsel]
  refine ⟨rfl, ?_, by simp [ha], by simp [ho], ?_⟩
  · rw [docBytes_addLen, docBytes_pushRaw _ _ hne, hd]
  · simp [hc, escapeJson_length, hlen]

lemma json_escape_buf_mem (j : JsonData) (max_size total : Nat) (d : List Nat)
    (l : Bool) (h : j.allocs = []) :
    (json_escape_buf j max_size total (.mem d l)).ok = true ∧
    docBytes (json_escape_buf j max_size total (.mem d l)).j
      = docBytes j ++ escapeJson (memPiece max_size total d) ∧
    (json_escape_buf j max_size total (.mem d l)).j.allocs = [] ∧
    (json_escape_buf j max_size total (.mem d l)).j.oom = j.oom ∧
    (json_escape_buf j max_size total (.mem d l)).j.content_length
      = j.content_length + (escapeJson (memPiece max_size total d)).length := by
  by_cases hge : total ≥ max_size
  · have hj : json_escape_buf j max_size total (.mem d l)
        = ⟨j, total + bufSize (.mem d l), true⟩ := by
      unfold json_escape_buf
      simp [hge]
    have hp : memPiece max_size total d = [] := by simp [memPiece, hge]
    rw [hj, hp, escapeJson_nil]
    exact ⟨rfl, by simp, h, rfl, by simp⟩
  · have hulen : (d.take (if total + d.length > max_size
        then max_size - total else d.length)).length
        = (if total + d.length > max_size then max_size - total else d.length) := by
      rw [List.length_take]
      split_ifs <;> omega
    have hj : json_escape_buf j max_size total (.mem d l)
        = escapeWrite j (total + d.length)
            (d.take (if total + d.length > max_size
              then max_size - total else d.length))
            (if total + d.length > max_size then max_size - total
             else d.length) := by
      unfold json_escape_buf
      simp [hge, bufSize]
    have hp : memPiece max_size total d
        = d.take (if total + d.length > max_size
            then max_size - total else d.length) := by
      simp [memPiece, hge]
    rw [hj, hp]
    exact escapeWrite_spec j (total + d.length) _ _ h hulen

/-- The accumulator update as an `EmitsOk` map on the document. -/
lemma emitsOk_escape_mem (max_size total : Nat) (d : List Nat) (l : Bool) :
    EmitsOk (fun j => (json_escape_buf j max_size total (.mem d l)).j)
      (escapeJson (memPiece max_size total d)) := by
  intro j h
  obtain ⟨_, hd, ha, ho, hc⟩ := json_escape_buf_mem j max_size total d l h
  exact ⟨hd, ha, ho, hc⟩

/-! ## The body-capture loop -/

lemma totalOf_nil : totalOf [] = 0 := rfl

lemma totalOf_cons (d : List Nat) (ds : List (List Nat)) :
    totalOf (d :: ds) = d.length + totalOf ds := by
  simp [totalOf]

lemma capturedOf_nil (max_size total : Nat) : capturedOf max_size total [] = [] := rfl

lemma capturedOf_cons (max_size total : Nat) (d : List Nat) (ds : List (List Nat)) :
    capturedOf max_size total (d :: ds)
      = memPiece max_size total d ++ capturedOf max_size (total + d.length) ds := rfl

lemma emitBody_nil (max_size total : Nat) :
    emitBody max_size total []
      = [34] ++ (if total > max_size
          then [44] ++ emitUintProp (bytes "truncated") total else []) := by
  simp [emitBody, capturedOf_nil, totalOf_nil, escapeJson_nil]

lemma emitBody_cons (max_size total : Nat) (d : List Nat) (ds : List (List Nat)) :
    emitBody max_size total (d :: ds)
      = escapeJson (memPiece max_size total d)
          ++ emitBody max_size (total + d.length) ds := by
  unfold emitBody
  rw [capturedOf_cons, escapeJson_append, totalOf_cons]
  have hcond : total + (d.length + totalOf ds) = total + d.length + totalOf ds := by
    omega
  rw [hcond]
  simp

lemma write_body_loop_nil_pos (j : JsonData) (max_size total : Nat)
    (ht : total > max_size) :
    write_body_loop j max_size total []
      = json_write_uint_property (json_write_char (json_write_char j 34) 44)
          (bytes "truncated") total := by
  rw [show write_body_loop j max_size total []
      = (if total > max_size
         then json_write_uint_property (json_write_char (json_write_char j 34) 44)
                (bytes "truncated") total
         else json_write_char j 34) from rfl, if_pos ht]

lemma write_body_loop_nil_neg (j : JsonData) (max_size total : Nat)
    (ht : ¬ total > max_size) :
    write_body_loop j max_size total [] = json_write_char j 34 := by
  rw [show write_body_loop j max_size total []
      = (if total > max_size
         then json_write_uint_property (json_write_char (json_write_char j 34) 44)
                (bytes "truncated") total
         else json_write_char j 34) from rfl, if_neg ht]

lemma write_body_loop_cons_ok (j : JsonData) (max_size total : Nat) (c : NgxBuf)
    (rest : List NgxBuf) (hok : (json_escape_buf j max_size total c).ok = true) :
    write_body_loop j max_size total (c :: rest)
      = write_body_loop (json_escape_buf j max_size total c).j max_size
          (json_escape_buf j max_size total c).total rest := by
  rw [show write_body_loop j max_size total (c :: rest)
      = (if (json_escape_buf j max_size total c).ok
         then write_body_loop (json_escape_buf j max_size total c).j max_size
                (json_escape_buf j max_size total c).total rest
         else { (json_escape_buf j max_size total c).j with oom := true })
      from rfl, if_pos hok]

lemma memChunks_cons (d : List Nat) (ds : List (List Nat)) :
    memChunks (d :: ds) = NgxBuf.mem d false :: memChunks ds := rfl

lemma emitsOk_body_loop (max_size : Nat) (ds : List (List Nat)) (total : Nat)
    (hbound : total + totalOf ds < 10 ^ 20) :
    EmitsOk (fun j => write_body_loop j max_size total (memChunks ds))
      (emitBody max_size total ds) := by
  induction ds generalizing total with
  | nil =>
    by_cases ht : total > max_size
    · have hcomp := ((emitsOk_write_char 34).comp (emitsOk_write_char 44)).comp
        (emitsOk_uint (bytes "truncated") total
          (decimalBytes_length_le total 20 (by norm_num)
            (by rw [totalOf_nil] at hbound; omega)))
      intro j h
      have h2 := hcomp j h
      dsimp only at h2 ⊢
      rw [show memChunks [] = [] from rfl, write_body_loop_nil_pos j max_size total ht,
        emitBody_nil, if_pos ht]
      simpa using h2
    · intro j h
      have h2 := emitsOk_write_char 34 j h
      dsimp only at h2 ⊢
      rw [show memChunks [] = [] from rfl, write_body_loop_nil_neg j max_size total ht,
        emitBody_nil, if_neg ht]
      simpa using h2
  | cons d ds ih =>
    intro j h
    obtain ⟨hok, hd, ha, ho, hc⟩ := json_escape_buf_mem j max_size total d false h
    have htot : (json_escape_buf j max_size total (.mem d false)).total
        = total + d.length := by
      rw [json_escape_buf_total]
      rfl
    have hrec := ih (total + d.length)
      (by rw [totalOf_cons] at hbound; omega)
      ((json_escape_buf j max_size total (.mem d false)).j) ha
    dsimp only at hrec ⊢
    rw [memChunks_cons, write_body_loop_cons_ok j max_size total _ _ hok, htot,
      emitBody_cons]
    obtain ⟨rd, ra, ro, rc⟩ := hrec
    refine ⟨?_, ra, by rw [ro, ho], ?_⟩
    · rw [rd, hd]
      simp
    · rw [rc, hc]
      simp
      omega

/-- The whole `ngx_akita_write_body` emission for an in-memory body. -/
lemma emitsOk_write_body (max_size : Nat) (ds : List (List Nat))
    (hbound : totalOf ds < 10 ^ 20) :
    EmitsOk (fun j => ngx_akita_write_body j (some (memChunks ds)) max_size)
      (emitStringLit (bytes "body") ++ [58, 34] ++ emitBody max_size 0 ds) := by
  have hcomp := (((emitsOk_string_literal (bytes "body")).comp
    (emitsOk_write_char 58)).comp (emitsOk_write_char 34)).comp
    (emitsOk_body_loop max_size ds 0 (by omega))
  intro j h
  have h2 := hcomp j h
  dsimp only at h2 ⊢
  rw [show ngx_akita_write_body j (some (memChunks ds)) max_size
    = write_body_loop (json_write_char (json_write_char
        (json_write_string_literal j (bytes "body")) 58) 34) max_size 0
        (memChunks ds) from rfl]
  simpa using h2

/-! ## Finishing the response document -/

lemma finish_response_docBytes (ctx : AkitaCtx) (max_size : Nat)
    (h : ctx.response_json.allocs = [])
    (hb : ctx.response_body_size < 10 ^ 20) :
    docBytes (ngx_akita_finish_response_body ctx max_size).1
      = docBytes ctx.response_json ++ [34, 44]
        ++ (if ctx.response_body_size > max_size
            then emitUintProp (bytes "truncated") ctx.response_body_size ++ [44]
            else [])
        ++ emitStringLit (bytes "response_complete") ++ [58]
        ++ emitTime ctx.response_complete_sec ctx.response_complete_usec
        ++ [125] := by
  have h20 := decimalBytes_length_le ctx.response_body_size 20 (by norm_num) hb
  by_cases hc : ctx.response_body_size > max_size
  · have hfin : (ngx_akita_finish_response_body ctx max_size).1
        = json_write_char (json_write_time_literal (json_write_char
            (json_write_string_literal
              (json_write_char (json_write_uint_property
                (json_write_char (json_write_char ctx.response_json 34) 44)
                (bytes "truncated") ctx.response_body_size) 44)
              (bytes "response_complete")) 58)
            ctx.response_complete_sec ctx.response_complete_usec) 125 := by
      simp [ngx_akita_finish_response_body, hc]
    have hcomp := (((((((emitsOk_write_char 34).comp
      (emitsOk_write_char 44)).comp
      (emitsOk_uint (bytes "truncated") ctx.response_body_size h20)).comp
      (emitsOk_write_char 44)).comp
      (emitsOk_string_literal (bytes "response_complete"))).comp
      (emitsOk_write_char 58)).comp
      (emitsOk_time ctx.response_complete_sec ctx.response_complete_usec)).comp
      (emitsOk_write_char 125)
    have h2 := (hcomp ctx.response_json h).1
    dsimp only at h2
    rw [hfin, h2, if_pos hc]
    simp
  · have hfin : (ngx_akita_finish_response_body ctx max_size).1
        = json_write_char (json_write_time_literal (json_write_char
            (json_write_string_literal
              (json_write_char (json_write_char ctx.response_json 34) 44)
              (bytes "response_complete")) 58)
            ctx.response_complete_sec ctx.response_complete_usec) 125 := by
      simp [ngx_akita_finish_response_body, hc]
    have hcomp := (((((emitsOk_write_char 34).comp
      (emitsOk_write_char 44)).comp
      (emitsOk_string_literal (bytes "response_complete"))).comp
      (emitsOk_write_char 58)).comp
      (emitsOk_time ctx.response_complete_sec ctx.response_complete_usec)).comp
      (emitsOk_write_char 125)
    have h2 := (hcomp ctx.response_json h).1
    dsimp only at h2
    rw [hfin, h2, if_neg hc]
    simp

/-! ## Claim C1 -/

/-- C1: for a body capture (request side: `ngx_akita_write_body`; response
side: `ngx_akita_finish_response_body`), after all chunks are appended the
document carries a `"truncated": <total>` property exactly when the
accumulated total size strictly exceeds the configured maximum; at exact
equality no `truncated` field appears.  The emitted bytes are characterised
exactly, with the `truncated` segment present under `totalOf ds > max_size`
(resp. `response_body_size > rmax`) and absent otherwise. -/
theorem C1_truncated_iff_total_exceeds_max (j : JsonData) (ds : List (List Nat))
    (max_size : Nat) (ctx : AkitaCtx) (rmax : Nat)
    (hj : j.allocs = []) (hds : totalOf ds < 10 ^ 20)
    (hc : ctx.response_json.allocs = [])
    (hsz : ctx.response_body_size < 10 ^ 20) :
    docBytes (ngx_akita_write_body j (some (memChunks ds)) max_size)
      = docBytes j ++ emitStringLit (bytes "body") ++ [58, 34]
        ++ escapeJson (capturedOf max_size 0 ds) ++ [34]
        ++ (if totalOf ds > max_size
            then [44] ++ emitUintProp (bytes "truncated") (totalOf ds)
            else [])
    ∧ docBytes (ngx_akita_finish_response_body ctx rmax).1
      = docBytes ctx.response_json ++ [34, 44]
        ++ (if ctx.response_body_size > rmax
            then emitUintProp (bytes "truncated") ctx.response_body_size ++ [44]
            else [])
        ++ emitStringLit (bytes "response_complete") ++ [58]
        ++ emitTime ctx.response_complete_sec ctx.response_complete_usec
        ++ [125] := by
  constructor
  · have h2 := (emitsOk_write_body max_size ds hds j hj).1
    dsimp only at h2
    rw [h2]
    unfold emitBody
    simp
  · exact finish_response_docBytes ctx rmax hc hsz

/-- Witness for C1: `max_size = 10` with chunks of sizes 4 and 6 (total
exactly 10) emits no `truncated` segment on the request side; a response
document with accumulated size 12 against `rmax = 10` emits
`"truncated":12`. -/
theorem C1_witness :
    docBytes (ngx_akita_write_body (json_alloc [])
        (some (memChunks [bytes "aaaa", bytes "bbbbbb"])) 10)
      = docBytes (json_alloc []) ++ emitStringLit (bytes "body") ++ [58, 34]
        ++ escapeJson (capturedOf 10 0 [bytes "aaaa", bytes "bbbbbb"]) ++ [34]
        ++ (if totalOf [bytes "aaaa", bytes "bbbbbb"] > 10
            then [44] ++ emitUintProp (bytes "truncated")
                    (totalOf [bytes "aaaa", bytes "bbbbbb"])
            else [])
    ∧ docBytes (ngx_akita_finish_response_body ⟨true, json_alloc [], 12, 3, 4⟩ 10).1
      = docBytes (json_alloc [] : JsonData) ++ [34, 44]
        ++ (if 12 > 10 then emitUintProp (bytes "truncated") 12 ++ [44] else [])
        ++ emitStringLit (bytes "response_complete") ++ [58]
        ++ emitTime 3 4 ++ [125] :=
  C1_truncated_iff_total_exceeds_max (json_alloc []) [bytes "aaaa", bytes "bbbbbb"]
    10 ⟨true, json_alloc [], 12, 3, 4⟩ 10 rfl (by decide) rfl (by decide)

/-! ## Claim C2 -/

lemma capturedOf_length (max_size : Nat) (ds : List (List Nat)) :
    ∀ total, (capturedOf max_size total ds).length
      = min (total + totalOf ds) max_size - total := by
  induction ds with
  | nil =>
    intro total
    rw [capturedOf_nil, totalOf_nil, Nat.add_zero, Nat.min_def]
    simp only [List.length_nil]
    split_ifs <;> omega
  | cons d rest ih =>
    intro total
    rw [capturedOf_cons, totalOf_cons, List.length_append, ih (total + d.length)]
    unfold memPiece
    by_cases hge : total ≥ max_size
    · simp only [hge, if_true, List.length_nil]
      rw [Nat.min_def]
      split_ifs <;> omega
    · simp only [hge, if_false, List.length_take]
      rw [Nat.min_def, Nat.min_def]
      split_ifs <;> omega

/-- C2: feeding one chunk through `json_escape_buf` always adds the chunk's
length to the total-size accumulator; if the accumulator already reached
`max_size` the chunk contributes no bytes to the literal, otherwise exactly
`min (chunk.length) (max_size - total)` source bytes are written in escaped
form — and across a whole capture the raw bytes written always number
`min (totalOf ds) max_size`, so the budget `max_size - total` equals
`max_size` minus the bytes already written. -/
theorem C2_bounded_chunk_append (j : JsonData) (max_size total : Nat)
    (d : List Nat) (l : Bool) (ds : List (List Nat)) (hj : j.allocs = []) :
    (json_escape_buf j max_size total (.mem d l)).total = total + d.length
    ∧ (total ≥ max_size →
        docBytes (json_escape_buf j max_size total (.mem d l)).j = docBytes j)
    ∧ (total < max_size →
        docBytes (json_escape_buf j max_size total (.mem d l)).j
          = docBytes j
            ++ escapeJson (d.take (min d.length (max_size - total))))
    ∧ (capturedOf max_size 0 ds).length = min (totalOf ds) max_size := by
  obtain ⟨_, hd, _, _, _⟩ := json_escape_buf_mem j max_size total d l hj
  refine ⟨?_, ?_, ?_, ?_⟩
  · rw [json_escape_buf_total]; rfl
  · intro hge
    rw [hd]
    have : memPiece max_size total d = [] := by simp [memPiece, hge]
    rw [this, escapeJson_nil, List.append_nil]
  · intro hlt
    rw [hd]
    have : memPiece max_size total d
        = d.take (min d.length (max_size - total)) := by
      unfold memPiece
      rw [if_neg (by omega)]
      congr 1
      rw [Nat.min_def]
      split_ifs <;> omega
    rw [this]
  · rw [capturedOf_length]
    omega

/-- Witness for C2: the spec's `[4, 4, 4]` chunks against `max_size = 10`; at
the third chunk the accumulator is 8, so exactly `min 4 (10 - 8) = 2` source
bytes are written, and the whole capture stores `min 12 10 = 10` raw
bytes. -/
theorem C2_witness :
    (json_escape_buf (json_alloc []) 10 8 (.mem (bytes "cccc") false)).total
        = 8 + (bytes "cccc").length
    ∧ (8 ≥ 10 →
        docBytes (json_escape_buf (json_alloc []) 10 8
          (.mem (bytes "cccc") false)).j = docBytes (json_alloc []))
    ∧ (8 < 10 →
        docBytes (json_escape_buf (json_alloc []) 10 8
          (.mem (bytes "cccc") false)).j
          = docBytes (json_alloc [])
            ++ escapeJson ((bytes "cccc").take (min (bytes "cccc").length (10 - 8))))
    ∧ (capturedOf 10 0 [bytes "aaaa", bytes "bbbb", bytes "cccc"]).length
        = min (totalOf [bytes "aaaa", bytes "bbbb", bytes "cccc"]) 10 :=
  C2_bounded_chunk_append (json_alloc []) 10 8 (bytes "cccc") false
    [bytes "aaaa", bytes "bbbb", bytes "cccc"] rfl

/-! ## Escaping round-trips through a JSON string parser -/

lemma parse_step_short (e v : Nat) (t : List Nat) (h : unescapeShort e = some v) :
    parseStringLitAux (92 :: e :: t)
      = (parseStringLitAux t).map (fun p => (v :: p.1, p.2)) := by
  have h117 : e ≠ 117 := by
    intro he
    rw [he] at h
    simp [unescapeShort] at h
  conv_lhs => rw [parseStringLitAux.eq_def]
  simp [h, h117]

lemma hexVal_hexDigitByte (m : Nat) (hm : m < 16) :
    hexVal (hexDigitByte m) = some m := by
  unfold hexDigitByte hexVal
  split_ifs <;> first | (congr 1; omega) | (exfalso; omega)

lemma parse_step_u (c : Nat) (t : List Nat) (hc : c ≤ 31) :
    parseStringLitAux
        (92 :: 117 :: 48 :: 48 :: (48 + c / 16) :: hexDigitByte (c % 16) :: t)
      = (parseStringLitAux t).map (fun p => (c :: p.1, p.2)) := by
  have h1 : hexVal 48 = some 0 := by simp [hexVal]
  have h2 : hexVal (48 + c / 16) = some (c / 16) := by
    have hd : c / 16 ≤ 1 := by omega
    unfold hexVal
    rw [if_pos ⟨by omega, by omega⟩]
    congr 1
    omega
  have h3 := hexVal_hexDigitByte (c % 16) (Nat.mod_lt _ (by norm_num))
  have hv : c / 16 * 16 + c % 16 = c := by omega
  conv_lhs => rw [parseStringLitAux.eq_def]
  simp [h1, h2, h3]
  simp only [hv]

lemma parse_escapeChar (c : Nat) (t : List Nat) :
    parseStringLitAux (escapeChar c ++ t)
      = (parseStringLitAux t).map (fun p => (c :: p.1, p.2)) := by
  by_cases hqb : c = 92 ∨ c = 34
  · have he : escapeChar c = [92, c] := by
      unfold escapeChar
      rw [if_pos hqb]
    rw [he, show ([92, c] : List Nat) ++ t = 92 :: c :: t from rfl]
    rcases hqb with h | h <;> subst h <;> exact parse_step_short _ _ t (by decide)
  · by_cases h31 : c ≤ 31
    · by_cases hsp : c = 10 ∨ c = 13 ∨ c = 9 ∨ c = 8 ∨ c = 12
      · rcases hsp with h | h | h | h | h
        · subst h
          rw [show escapeChar 10 = [92, 110] from by decide,
            show ([92, 110] : List Nat) ++ t = 92 :: 110 :: t from rfl]
          exact parse_step_short _ _ t (by decide)
        · subst h
          rw [show escapeChar 13 = [92, 114] from by decide,
            show ([92, 114] : List Nat) ++ t = 92 :: 114 :: t from rfl]
          exact parse_step_short _ _ t (by decide)
        · subst h
          rw [show escapeChar 9 = [92, 116] from by decide,
            show ([92, 116] : List Nat) ++ t = 92 :: 116 :: t from rfl]
          exact parse_step_short _ _ t (by decide)
        · subst h
          rw [show escapeChar 8 = [92, 98] from by decide,
            show ([92, 98] : List Nat) ++ t = 92 :: 98 :: t from rfl]
          exact parse_step_short _ _ t (by decide)
        · subst h
          rw [show escapeChar 12 = [92, 102] from by decide,
            show ([92, 102] : List Nat) ++ t = 92 :: 102 :: t from rfl]
          exact parse_step_short _ _ t (by decide)
      · push_neg at hsp
        obtain ⟨h10, h13, h9, h8, h12⟩ := hsp
        have he : escapeChar c
            = [92, 117, 48, 48, 48 + c / 16, hexDigitByte (c % 16)] := by
          unfold escapeChar
          rw [if_neg hqb, if_pos h31, if_neg h10, if_neg h13, if_neg h9,
            if_neg h8, if_neg h12]
        rw [he, show ([92, 117, 48, 48, 48 + c / 16, hexDigitByte (c % 16)]
            : List Nat) ++ t
          = 92 :: 117 :: 48 :: 48 :: (48 + c / 16) :: hexDigitByte (c % 16) :: t
          from rfl]
        exact parse_step_u c t h31
    · push_neg at hqb
      have he : escapeChar c = [c] := by
        unfold escapeChar
        rw [if_neg (by tauto), if_neg h31]
      rw [he, show ([c] : List Nat) ++ t = c :: t from rfl]
      conv_lhs => rw [parseStringLitAux.eq_def]
      simp [hqb.1, hqb.2, show ¬ c < 32 by omega]

lemma parse_escapeJson (s t : List Nat) :
    parseStringLitAux (escapeJson s ++ t)
      = (parseStringLitAux t).map (fun p => (s ++ p.1, p.2)) := by
  induction s generalizing t with
  | nil =>
    rw [escapeJson_nil, List.nil_append]
    cases parseStringLitAux t <;> simp
  | cons c s ih =>
    rw [escapeJson_cons, List.append_assoc, parse_escapeChar, ih]
    cases parseStringLitAux t <;> simp

lemma parse_stringLit (s t : List Nat) :
    parseStringLitAux (escapeJson s ++ 34 :: t) = some (s, t) := by
  rw [parse_escapeJson]
  have : parseStringLitAux (34 :: t) = some ([], t) := by
    conv_lhs => rw [parseStringLitAux.eq_def]
    simp
  rw [this]
  simp

/-! ## Claim C6 -/

lemma ensure_space_segs_le (j : JsonData) (n : Nat) :
    (json_ensure_space j n).1.segsRev.length ≤ j.segsRev.length + 1 := by
  unfold json_ensure_space popAlloc
  by_cases hf : segFits j n
  · simp [hf]
  · cases hal : j.allocs with
    | nil => simp [hf, hal]
    | cons b rest => cases b <;> simp [hf, hal]

lemma pushRaw_segs_length (j : JsonData) (bs : List Nat) :
    (pushRaw j bs).segsRev.length = j.segsRev.length := by
  cases hs : j.segsRev with
  | nil => unfold pushRaw; rw [hs]; simp [hs]
  | cons a l => unfold pushRaw; rw [hs]; simp [hs]

/-- C6: `json_write_string_literal` emits a double-quoted literal whose
escaped body decodes back to the original bytes (for every input, including
quotes, backslashes, control bytes and multi-byte sequences, which pass
through byte by byte), requests its space as a single reservation of
`original_length + escape_delta + 2` bytes — `content_length` advances by
exactly that amount and at most one new segment is added — and a JSON
string-literal parser recovers the original bytes. -/
theorem C6_string_literal_roundtrip (j : JsonData) (s : List Nat)
    (hj : j.allocs = []) :
    docBytes (json_write_string_literal j s)
      = docBytes j ++ [34] ++ escapeJson s ++ [34]
    ∧ (json_write_string_literal j s).content_length
        = j.content_length + (s.length + escapeDelta s + 2)
    ∧ (json_write_string_literal j s).segsRev.length ≤ j.segsRev.length + 1
    ∧ parseStringLitAux (escapeJson s ++ [34]) = some (s, []) := by
  obtain ⟨hd, _, _, hc⟩ := emitsOk_string_literal s j hj
  refine ⟨?_, ?_, ?_, ?_⟩
  · rw [hd]
    simp [emitStringLit]
  · rw [hc]
    simp [emitStringLit, escapeJson_length]
  · unfold json_write_string_literal
    by_cases h2 : (json_ensure_space j (escapeDelta s + s.length + 2)).2
    · simp only [h2, if_true, addLen_segsRev, pushRaw_segs_length]
      exact ensure_space_segs_le j _
    · simp only [h2, Bool.false_eq_true, if_false]
      exact ensure_space_segs_le j _
  · exact parse_stringLit s []

/-- Witness for C6 at a string holding a quote, a backslash, a newline, a
control byte and a three-byte UTF-8 sequence. -/
theorem C6_witness :
    docBytes (json_write_string_literal (json_alloc [])
        [34, 92, 10, 7, 226, 130, 172])
      = docBytes (json_alloc []) ++ [34]
        ++ escapeJson [34, 92, 10, 7, 226, 130, 172] ++ [34]
    ∧ (json_write_string_literal (json_alloc [])
        [34, 92, 10, 7, 226, 130, 172]).content_length
      = (json_alloc [] : JsonData).content_length
        + ((7 : Nat) + escapeDelta [34, 92, 10, 7, 226, 130, 172] + 2)
    ∧ (json_write_string_literal (json_alloc [])
        [34, 92, 10, 7, 226, 130, 172]).segsRev.length
        ≤ (json_alloc [] : JsonData).segsRev.length + 1
    ∧ parseStringLitAux (escapeJson [34, 92, 10, 7, 226, 130, 172] ++ [34])
        = some ([34, 92, 10, 7, 226, 130, 172], []) :=
  C6_string_literal_roundtrip (json_alloc []) [34, 92, 10, 7, 226, 130, 172] rfl

/-! ## Claim C5 -/

lemma parseMember_render (p : List Nat × List Nat) (t : List Nat) :
    parseMember (renderPair p ++ t) = some (p, t) := by
  have hcons : renderPair p ++ t
      = 34 :: (escapeJson p.1 ++ 34 :: (58 :: 34 :: (escapeJson p.2 ++ 34 :: t))) := by
    simp [renderPair, emitStringLit]
  rw [hcons]
  simp [parseMember, parse_stringLit]

lemma parseMembersFuel_cons (fuel : Nat) (a : Nat) (input : List Nat) :
    parseMembersFuel (fuel + 1) (a :: input)
      = (match parseMember (a :: input) with
         | some (kv, rest) =>
           match rest with
           | [] => some [kv]
           | 44 :: rest2 => (parseMembersFuel fuel rest2).map (fun l => kv :: l)
           | _ => none
         | none => none) := rfl

lemma parseMembersFuel_render_step (fuel : Nat) (p : List Nat × List Nat)
    (t : List Nat) :
    parseMembersFuel (fuel + 1) (renderPair p ++ t)
      = (match t with
         | [] => some [p]
         | 44 :: rest2 => (parseMembersFuel fuel rest2).map (fun l => p :: l)
         | _ => none) := by
  have hcons : renderPair p ++ t
      = 34 :: (escapeJson p.1 ++ 34 :: (58 :: 34 :: (escapeJson p.2 ++ 34 :: t))) := by
    simp [renderPair, emitStringLit]
  rw [hcons, parseMembersFuel_cons, ← hcons, parseMember_render]

lemma parseMembers_render (ps : List (List Nat × List Nat)) :
    parseMembersFuel ps.length (renderPairs ps) = some ps := by
  induction ps with
  | nil => rfl
  | cons p rest ih =>
    cases rest with
    | nil =>
      rw [show renderPairs [p] = renderPair p ++ [] from by simp [renderPairs],
        show ([p] : List (List Nat × List Nat)).length = 0 + 1 from rfl,
        parseMembersFuel_render_step]
    | cons q qs =>
      rw [renderPairs_cons2, List.append_assoc,
        show (p :: q :: qs).length = (q :: qs).length + 1 from rfl,
        parseMembersFuel_render_step]
      show (parseMembersFuel (q :: qs).length (renderPairs (q :: qs))).map
        (fun l => p :: l) = some (p :: q :: qs)
      rw [ih]
      rfl

/-- C5: `json_write_kv_strings` emits exactly the non-omitted pairs (before
the sentinel) joined by single commas — `renderPairs` places one comma
between consecutive pairs and none at the ends — for every kv list and
every omission pattern; and the emitted text parses as a sequence of JSON
object members that decodes back to those exact pairs. -/
theorem C5_kv_comma_safe (j : JsonData) (kvs : List KvString)
    (hj : j.allocs = []) :
    docBytes (json_write_kv_strings j kvs)
      = docBytes j ++ renderPairs (activePairs kvs)
    ∧ parseMembersFuel (activePairs kvs).length
        (renderPairs (activePairs kvs)) = some (activePairs kvs) := by
  constructor
  · have h2 := (emitsOk_kv kvs j hj).1
    dsimp only at h2
    rw [h2, (emitKvAux_render kvs).1]
  · exact parseMembers_render (activePairs kvs)

/-- Witness for C5 at a five-entry list whose first and fourth entries are
omitted (so the comma sits exactly between the three emitted pairs). -/
theorem C5_witness :
    docBytes (json_write_kv_strings (json_alloc [])
        [⟨bytes "a", bytes "1", true⟩, ⟨bytes "b", bytes "2", false⟩,
         ⟨bytes "c", bytes "3", false⟩, ⟨bytes "d", bytes "4", true⟩,
         ⟨bytes "e", bytes "5", false⟩])
      = docBytes (json_alloc [])
        ++ renderPairs (activePairs
          [⟨bytes "a", bytes "1", true⟩, ⟨bytes "b", bytes "2", false⟩,
           ⟨bytes "c", bytes "3", false⟩, ⟨bytes "d", bytes "4", true⟩,
           ⟨bytes "e", bytes "5", false⟩])
    ∧ parseMembersFuel (activePairs
          [⟨bytes "a", bytes "1", true⟩, ⟨bytes "b", bytes "2", false⟩,
           ⟨bytes "c", bytes "3", false⟩, ⟨bytes "d", bytes "4", true⟩,
           ⟨bytes "e", bytes "5", false⟩]).length
        (renderPairs (activePairs
          [⟨bytes "a", bytes "1", true⟩, ⟨bytes "b", bytes "2", false⟩,
           ⟨bytes "c", bytes "3", false⟩, ⟨bytes "d", bytes "4", true⟩,
           ⟨bytes "e", bytes "5", false⟩]))
      = some (activePairs
          [⟨bytes "a", bytes "1", true⟩, ⟨bytes "b", bytes "2", false⟩,
           ⟨bytes "c", bytes "3", false⟩, ⟨bytes "d", bytes "4", true⟩,
           ⟨bytes "e", bytes "5", false⟩]) :=
  C5_kv_comma_safe (json_alloc [])
    [⟨bytes "a", bytes "1", true⟩, ⟨bytes "b", bytes "2", false⟩,
     ⟨bytes "c", bytes "3", false⟩, ⟨bytes "d", bytes "4", true⟩,
     ⟨bytes "e", bytes "5", false⟩] rfl

/-! ## Claim C7 -/

lemma gmtime_hour (t : Nat) : (ngx_gmtime t).hour = t % 86400 / 3600 := rfl

lemma gmtime_minute (t : Nat) :
    (ngx_gmtime t).minute = t % 86400 % 3600 / 60 := rfl

lemma gmtime_sec (t : Nat) : (ngx_gmtime t).sec = t % 86400 % 3600 % 60 := rfl

lemma gmtime_hour_lt (t : Nat) : (ngx_gmtime t).hour < 24 := by
  rw [gmtime_hour]; omega

lemma gmtime_minute_lt (t : Nat) : (ngx_gmtime t).minute < 60 := by
  rw [gmtime_minute]; omega

lemma gmtime_sec_lt (t : Nat) : (ngx_gmtime t).sec < 60 := by
  rw [gmtime_sec]; omega

lemma padNum_length_of_le (z : Bool) (w n : Nat)
    (h : (decimalBytes n).length ≤ w) : (padNum z w n).length = w := by
  rw [padNum_length]
  omega

lemma timeFormatBytes_length_aux (sec usec : Nat)
    (h4 : (decimalBytes (ngx_gmtime sec).year).length = 4)
    (hmon : (decimalBytes (ngx_gmtime sec).mon).length ≤ 2)
    (hmd : (decimalBytes (ngx_gmtime sec).mday).length ≤ 2)
    (hh : (decimalBytes (ngx_gmtime sec).hour).length ≤ 2)
    (hmin : (decimalBytes (ngx_gmtime sec).minute).length ≤ 2)
    (hs : (decimalBytes (ngx_gmtime sec).sec).length ≤ 2)
    (hus : (decimalBytes usec).length ≤ 6) :
    (timeFormatBytes sec usec).length = 29 := by
  unfold timeFormatBytes
  simp only [List.length_append, List.length_cons, List.length_nil,
    padNum_length]
  omega

lemma timeFormatBytes_length (sec usec : Nat) (hu : usec < 1000000)
    (hy1 : 1000 ≤ (ngx_gmtime sec).year) (hy2 : (ngx_gmtime sec).year < 10000)
    (hm : (ngx_gmtime sec).mon < 100) (hd : (ngx_gmtime sec).mday < 100) :
    (timeFormatBytes sec usec).length = 29 :=
  timeFormatBytes_length_aux sec usec
    (decimalBytes_length_eq _ 3 (by norm_num; omega) (by norm_num; omega))
    (decimalBytes_length_le _ 2 (by norm_num) (by norm_num; omega))
    (decimalBytes_length_le _ 2 (by norm_num) (by norm_num; omega))
    (decimalBytes_length_le _ 2 (by norm_num)
      (by have := gmtime_hour_lt sec; norm_num; omega))
    (decimalBytes_length_le _ 2 (by norm_num)
      (by have := gmtime_minute_lt sec; norm_num; omega))
    (decimalBytes_length_le _ 2 (by norm_num)
      (by have := gmtime_sec_lt sec; norm_num; omega))
    (decimalBytes_length_le _ 6 (by norm_num) (by norm_num; omega))

/-- C7: `json_write_time_literal` emits a double-quoted RFC3339 timestamp
ending in `.<6 digits>Z"`: the fractional part is the microsecond value
zero-padded to exactly six digits (so 123456 renders as `.123456`), the
literal carries the `Z` UTC suffix, and the 29-byte output is not cut by the
`ngx_vslprintf` bound.  The hypotheses on the broken-down time hold for every
real timestamp (year 1970-9999, month and day two digits). -/
theorem C7_timestamp_format (j : JsonData) (sec usec : Nat)
    (hj : j.allocs = []) (hu : usec < 1000000)
    (hy1 : 1000 ≤ (ngx_gmtime sec).year) (hy2 : (ngx_gmtime sec).year < 10000)
    (hm : (ngx_gmtime sec).mon < 100) (hd : (ngx_gmtime sec).mday < 100) :
    docBytes (json_write_time_literal j sec usec)
      = docBytes j ++ [34] ++ decimalBytes (ngx_gmtime sec).year ++ [45]
        ++ padNum true 2 (ngx_gmtime sec).mon ++ [45]
        ++ padNum true 2 (ngx_gmtime sec).mday ++ [84]
        ++ padNum true 2 (ngx_gmtime sec).hour ++ [58]
        ++ padNum true 2 (ngx_gmtime sec).minute ++ [58]
        ++ padNum true 2 (ngx_gmtime sec).sec ++ [46]
        ++ padNum true 6 usec ++ [90, 34]
    ∧ (padNum true 6 usec).length = 6 := by
  have h4 : (decimalBytes (ngx_gmtime sec).year).length = 4 :=
    decimalBytes_length_eq _ 3 (by norm_num; omega) (by norm_num; omega)
  have hus := decimalBytes_length_le usec 6 (by norm_num) (by norm_num; omega)
  have hy : padNum false 4 (ngx_gmtime sec).year
      = decimalBytes (ngx_gmtime sec).year := by
    apply padNum_of_ge
    omega
  have hfull : emitTime sec usec = timeFormatBytes sec usec := by
    unfold emitTime time_format_len
    exact List.take_of_length_le
      (le_of_eq (timeFormatBytes_length sec usec hu hy1 hy2 hm hd))
  constructor
  · have h2 := (emitsOk_time sec usec j hj).1
    dsimp only at h2
    rw [h2, hfull]
    unfold timeFormatBytes
    rw [hy]
    simp only [List.append_assoc]
  · exact padNum_length_of_le true 6 usec hus

/-- Witness for C7 at the spec's example instant
2022-12-07T12:34:56.123456Z (epoch second 1670416496). -/
theorem C7_witness :
    docBytes (json_write_time_literal (json_alloc []) 1670416496 123456)
      = docBytes (json_alloc []) ++ [34]
        ++ decimalBytes (ngx_gmtime 1670416496).year ++ [45]
        ++ padNum true 2 (ngx_gmtime 1670416496).mon ++ [45]
        ++ padNum true 2 (ngx_gmtime 1670416496).mday ++ [84]
        ++ padNum true 2 (ngx_gmtime 1670416496).hour ++ [58]
        ++ padNum true 2 (ngx_gmtime 1670416496).minute ++ [58]
        ++ padNum true 2 (ngx_gmtime 1670416496).sec ++ [46]
        ++ padNum true 6 123456 ++ [90, 34]
    ∧ (padNum true 6 123456).length = 6 :=
  C7_timestamp_format (json_alloc []) 1670416496 123456 rfl (by decide)
    (by decide) (by decide) (by decide) (by decide)

/-! ## Claim C3: the sticky OOM flag -/

/-- `f` never clears the OOM flag. -/
def OomMono (f : JsonData → JsonData) : Prop :=
  ∀ j, j.oom = true → (f j).oom = true

lemma OomMono.compose {f g : JsonData → JsonData} (hf : OomMono f)
    (hg : OomMono g) : OomMono (fun j => g (f j)) :=
  fun j h => hg (f j) (hf j h)

lemma popAlloc_oom (j : JsonData) : (popAlloc j).1.oom = j.oom := by
  unfold popAlloc
  cases j.allocs <;> simp

lemma ensure_space_oom_mono (j : JsonData) (n : Nat) (h : j.oom = true) :
    (json_ensure_space j n).1.oom = true := by
  unfold json_ensure_space
  by_cases hf : segFits j n
  · simpa [hf] using h
  · by_cases hp : (popAlloc j).2 <;> simp [hf, hp, popAlloc_oom, h]

lemma oomMono_write_char (c : Nat) : OomMono (fun j => json_write_char j c) := by
  intro j h
  unfold json_write_char
  by_cases h2 : (json_ensure_space j 1).2 <;>
    simp [h2, ensure_space_oom_mono j 1 h]

lemma oomMono_string_literal (s : List Nat) :
    OomMono (fun j => json_write_string_literal j s) := by
  intro j h
  unfold json_write_string_literal
  by_cases h2 : (json_ensure_space j (escapeDelta s + s.length + 2)).2 <;>
    simp [h2, ensure_space_oom_mono j _ h]

lemma oomMono_snprintf (m : Nat) (out : List Nat) :
    OomMono (fun j => json_snprintf j m out) := by
  intro j h
  unfold json_snprintf
  by_cases h2 : (json_ensure_space j m).2 <;>
    simp [h2, ensure_space_oom_mono j m h]

lemma oomMono_uint (key : List Nat) (n : Nat) :
    OomMono (fun j => json_write_uint_property j key n) :=
  ((oomMono_string_literal key).compose (oomMono_write_char 58)).compose
    (oomMono_snprintf 20 (decimalBytes n))

lemma oomMono_time (sec usec : Nat) :
    OomMono (fun j => json_write_time_literal j sec usec) :=
  oomMono_snprintf time_format_len (timeFormatBytes sec usec)

lemma oomMono_kv_aux (kvs : List KvString) (nc : Bool) :
    OomMono (fun j => json_write_kv_strings_aux j nc kvs) := by
  induction kvs generalizing nc with
  | nil => intro j h; simpa [json_write_kv_strings_aux] using h
  | cons kv rest ih =>
    intro j h
    by_cases hk : kv.key.length = 0
    · simpa [json_write_kv_strings_aux, hk] using h
    · by_cases ho : kv.omitted = true
      · have := ih nc j h
        simpa [json_write_kv_strings_aux, hk, ho] using this
      · have hcomp : OomMono (fun j => json_write_kv_strings_aux
            (json_write_string_literal (json_write_char
              (json_write_string_literal
                (if nc then json_write_char j 44 else j) kv.key) 58)
              kv.value) true rest) := by
          have hfirst : OomMono (fun j => if nc then json_write_char j 44 else j) := by
            cases nc
            · intro j h; simpa using h
            · exact oomMono_write_char 44
          exact (((hfirst.compose (oomMono_string_literal kv.key)).compose
            (oomMono_write_char 58)).compose
            (oomMono_string_literal kv.value)).compose (ih true)
        have := hcomp j h
        simpa [json_write_kv_strings_aux, hk, ho] using this

lemma oomMono_escapeWrite (t : Nat) (raw : List Nat) (ulen : Nat) :
    OomMono (fun j => (escapeWrite j t raw ulen).j) := by
  intro j h
  unfold escapeWrite
  by_cases h2 : (json_ensure_space j (ulen + escapeDelta raw)).2 <;>
    simp [h2, ensure_space_oom_mono j _ h]

lemma oomMono_escape_buf (max_size total : Nat) (buf : NgxBuf) :
    OomMono (fun j => (json_escape_buf j max_size total buf).j) := by
  intro j h
  unfold json_escape_buf
  by_cases hge : total ≥ max_size
  · simpa [hge] using h
  · cases buf with
    | mem d l => simpa [hge] using oomMono_escapeWrite _ _ _ j h
    | file size rr junk l =>
      by_cases hp : (popAlloc j).2
      · cases rr with
        | error e => simpa [hge, hp, popAlloc_oom] using h
        | ok rd =>
          have := oomMono_escapeWrite (total + bufSize (.file size (.ok rd) junk l))
            (scratchContents rd junk (if total + size > max_size
              then max_size - total else size))
            (if total + size > max_size then max_size - total else size)
            (popAlloc j).1 (by rw [popAlloc_oom]; exact h)
          simpa [hge, hp, bufSize] using this
      · simpa [hge, hp, popAlloc_oom] using h
    | special l => simpa [hge] using h

lemma oomMono_applyOp (op : WriterOp) : OomMono (fun j => applyOp j op) := by
  cases op with
  | rawChar c => exact oomMono_write_char c
  | stringLit s => exact oomMono_string_literal s
  | uintProp key n => exact oomMono_uint key n
  | timeLit sec usec => exact oomMono_time sec usec
  | kvList kvs => exact oomMono_kv_aux kvs false
  | fmt m out => exact oomMono_snprintf m out
  | escapeBuf max_size total buf => exact oomMono_escape_buf max_size total buf

set_option maxRecDepth 8000 in
/-- C3 counterexample: the OOM flag is *not* checked by the writer.  On a
fresh document whose single allocation fails, a 683-byte all-control-byte
string literal (reservation 4100 > 4096) sets the sticky flag and appends
nothing — yet a subsequent `write_raw_char` still fits the untouched tail
segment, appends its byte and advances `content_length` from 0 to 1,
contradicting the claim that every subsequent writer operation is a
no-op once the flag is set. -/
theorem C3_counterexample :
    (json_write_string_literal (json_alloc [false])
        (List.replicate 683 0)).oom = true
    ∧ docBytes (json_write_string_literal (json_alloc [false])
        (List.replicate 683 0)) = []
    ∧ (json_write_string_literal (json_alloc [false])
        (List.replicate 683 0)).content_length = 0
    ∧ (json_write_char (json_write_string_literal (json_alloc [false])
        (List.replicate 683 0)) 120).content_length = 1
    ∧ docBytes (json_write_char (json_write_string_literal (json_alloc [false])
        (List.replicate 683 0)) 120) = [120] := by
  decide

/-- C3 amended: once set, the OOM flag is sticky — no public writer
operation ever clears it — and a document whose flag is set is rejected at
finalization: `ngx_akita_finish_response_body` reports failure, so the
document is never dispatched.  (Writer operations after the flag is set are
not all no-ops: one whose bytes fit the current tail segment still appends,
as the counterexample shows.) -/
theorem C3_oom_sticky_and_checked_at_finalize (j : JsonData) (op : WriterOp)
    (ctx : AkitaCtx) (max_size : Nat)
    (h1 : j.oom = true) (h2 : ctx.response_json.oom = true) :
    (applyOp j op).oom = true
    ∧ (ngx_akita_finish_response_body ctx max_size).2 = false := by
  constructor
  · exact oomMono_applyOp op j h1
  · unfold ngx_akita_finish_response_body
    have hmid : OomMono (fun j1 =>
        if ctx.response_body_size > max_size
        then json_write_char (json_write_uint_property j1
          (bytes "truncated") ctx.response_body_size) 44
        else j1) := by
      by_cases hc : ctx.response_body_size > max_size
      · intro x hx
        simpa [hc] using ((oomMono_uint (bytes "truncated")
          ctx.response_body_size).compose (oomMono_write_char 44)) x hx
      · intro x hx
        simpa [hc] using hx
    have hall := (((((((oomMono_write_char 34).compose
      (oomMono_write_char 44)).compose hmid).compose
      (oomMono_string_literal (bytes "response_complete"))).compose
      (oomMono_write_char 58)).compose
      (oomMono_time ctx.response_complete_sec ctx.response_complete_usec)).compose
      (oomMono_write_char 125)) ctx.response_json h2
    simp only at hall
    simp [hall]

set_option maxRecDepth 8000 in
/-- Witness for the amended C3 at the counterexample document. -/
theorem C3_amended_witness :
    (applyOp (json_write_string_literal (json_alloc [false])
        (List.replicate 683 0)) (WriterOp.rawChar 120)).oom = true
    ∧ (ngx_akita_finish_response_body
        ⟨true, json_write_string_literal (json_alloc [false])
          (List.replicate 683 0), 0, 0, 0⟩ 100).2 = false :=
  C3_oom_sticky_and_checked_at_finalize
    (json_write_string_literal (json_alloc [false]) (List.replicate 683 0))
    (WriterOp.rawChar 120)
    ⟨true, json_write_string_literal (json_alloc [false])
      (List.replicate 683 0), 0, 0, 0⟩ 100 (by decide) (by decide)

/-! ## Claim C4: failure signalling for storage-backed chunks -/

lemma scratchContents_length (rd junk : List Nat) (ulen : Nat) :
    (scratchContents rd junk ulen).length = ulen := by
  unfold scratchContents
  rw [List.length_take]
  simp
  omega

/-- C4 counterexample: a storage-backed chunk of declared size 4 whose read
returns only 2 bytes is *not* reported as a failure — `json_escape_buf`
returns success (and goes on to escape two bytes of uninitialized scratch
memory), where the claim requires an error. -/
theorem C4_counterexample :
    (json_escape_buf (json_alloc []) 100 0
        (NgxBuf.file 4 (Except.ok [65, 66]) [66, 67] false)).ok = true := by
  decide

/-- C4 amended: `json_escape_buf` signals failure when a storage-backed read
itself fails (whenever the chunk is actually read, i.e. the accumulator is
still below the cap); a read that returns fewer bytes than requested is not
detected and the call still succeeds (under successful allocation). -/
theorem C4_read_failure_only (j : JsonData) (max_size total size : Nat)
    (junk rd : List Nat) (l : Bool) :
    (total < max_size →
      (json_escape_buf j max_size total
        (.file size (Except.error ()) junk l)).ok = false)
    ∧ (j.allocs = [] →
      (json_escape_buf j max_size total
        (.file size (Except.ok rd) junk l)).ok = true) := by
  constructor
  · intro hlt
    unfold json_escape_buf
    rw [if_neg (by omega)]
    by_cases hp : (popAlloc j).2 <;> simp [hp]
  · intro ha
    by_cases hge : total ≥ max_size
    · unfold json_escape_buf
      simp [hge]
    · have hpop : popAlloc j = (j, true) := by
        unfold popAlloc
        rw [ha]
      have hok := (escapeWrite_spec j (total + size)
        (scratchContents rd junk
          (if total + size > max_size then max_size - total else size))
        (if total + size > max_size then max_size - total else size)
        ha (scratchContents_length rd junk _)).1
      unfold json_escape_buf
      rw [if_neg (by omega)]
      simpa [hpop, bufSize] using hok

/-- Witness for the amended C4: a failing read below the cap reports an
error; a short read (2 of 4 bytes) still reports success. -/
theorem C4_witness :
    (json_escape_buf (json_alloc []) 100 0
        (NgxBuf.file 4 (Except.error ()) [] false)).ok = false
    ∧ (json_escape_buf (json_alloc []) 100 0
        (NgxBuf.file 4 (Except.ok [65, 66]) [66, 67] false)).ok = true :=
  ⟨(C4_read_failure_only (json_alloc []) 100 0 4 [] [] false).1 (by decide),
   (C4_read_failure_only (json_alloc []) 100 0 4 [66, 67] [65, 66] false).2 rfl⟩

/-! ## Claim C8: the body filter always forwards the chain and disables the
session on failure -/

lemma filter_loop_cons (conf : LocConf) (ctx : AkitaCtx) (cb : Bool)
    (ns nu : Nat) (buf : NgxBuf) (rest : List NgxBuf) :
    response_body_filter_loop conf ctx cb ns nu (buf :: rest)
      = (let r := ngx_akita_append_response_body ctx conf.max_body_size buf
         if !r.2 then { r.1 with enabled := false }
         else if bufIsLast buf then
           let ctx2 := { r.1 with
             response_complete_sec := ns
             response_complete_usec := nu }
           if !cb then { ctx2 with enabled := false }
           else
             let f := ngx_akita_finish_response_body ctx2 conf.max_body_size
             let ctx3 := { ctx2 with response_json := f.1 }
             if f.2 then ctx3 else { ctx3 with enabled := false }
         else response_body_filter_loop conf r.1 cb ns nu rest) := rfl

/-- C8: (1) the body filter hands the incoming chain unchanged to the next
body filter on every call, whatever happens during mirroring; (2) when
appending a chunk fails, the loop disables the session at that point; (3) a
call with a disabled session performs no capture step: it returns the
context untouched and still forwards the chain. -/
theorem C8_filter_forwards_and_disables (isMain : Bool) (conf : Option LocConf)
    (ctx : Option AkitaCtx) (cb : Bool) (ns nu : Nat) (chain : List NgxBuf)
    (c : LocConf) (cx : AkitaCtx) (buf : NgxBuf) (rest : List NgxBuf)
    (hfail : (ngx_akita_append_response_body cx c.max_body_size buf).2 = false)
    (hdis : cx.enabled = false) :
    (ngx_http_akita_response_body_filter isMain conf ctx cb ns nu chain).2
        = chain
    ∧ (response_body_filter_loop c cx cb ns nu (buf :: rest)).enabled = false
    ∧ ngx_http_akita_response_body_filter true (some c) (some cx) cb ns nu chain
        = (some cx, chain) := by
  refine ⟨?_, ?_, ?_⟩
  · unfold ngx_http_akita_response_body_filter
    cases isMain with
    | false => simp
    | true =>
      cases conf with
      | none => simp
      | some c2 =>
        by_cases he : c2.enabled
        · cases ctx with
          | none => simp [he]
          | some cx2 =>
            by_cases he2 : cx2.enabled <;> simp [he, he2]
        · simp [he]
  · rw [filter_loop_cons]
    simp only [hfail]
    rfl
  · unfold ngx_http_akita_response_body_filter
    by_cases he : c.enabled <;> simp [he, hdis]

/-- Witness for C8: a main-request call over a single chunk whose
storage-backed read fails — the chain is forwarded, the loop (on a session,
here one already disabled) turns `enabled` off at the failing chunk, and a
disabled session is left untouched. -/
theorem C8_witness :
    (ngx_http_akita_response_body_filter true (some ⟨true, 100⟩)
        (some ⟨true, json_alloc [], 0, 0, 0⟩) true 0 0
        [NgxBuf.file 4 (Except.error ()) [] false]).2
      = [NgxBuf.file 4 (Except.error ()) [] false]
    ∧ (response_body_filter_loop ⟨true, 100⟩ ⟨false, json_alloc [], 0, 0, 0⟩
        true 0 0 [NgxBuf.file 4 (Except.error ()) [] false]).enabled = false
    ∧ ngx_http_akita_response_body_filter true (some ⟨true, 100⟩)
        (some ⟨false, json_alloc [], 0, 0, 0⟩) true 0 0
        [NgxBuf.file 4 (Except.error ()) [] false]
      = (some ⟨false, json_alloc [], 0, 0, 0⟩,
         [NgxBuf.file 4 (Except.error ()) [] false]) :=
  C8_filter_forwards_and_disables true (some ⟨true, 100⟩)
    (some ⟨true, json_alloc [], 0, 0, 0⟩) true 0 0
    [NgxBuf.file 4 (Except.error ()) [] false]
    ⟨true, 100⟩ ⟨false, json_alloc [], 0, 0, 0⟩
    (NgxBuf.file 4 (Except.error ()) [] false) [] (by decide) rfl

/-! ## Claim C9: host and nginx_internal markers in the request document -/

lemma activePairs_req (rid method uri : List Nat) (host : Option (List Nat))
    (internal : Bool) :
    activePairs [⟨bytes "request_id", rid, false⟩, ⟨bytes "method", method, false⟩,
      ⟨bytes "path", uri, false⟩, ⟨bytes "host", host.getD [], host.isNone⟩,
      ⟨bytes "nginx_internal", bytes "true", !internal⟩]
      = reqPairs rid method uri host internal := by
  cases host <;> cases internal <;> rfl

lemma send_chain (rid method uri : List Nat) (host : Option (List Nat))
    (internal : Bool) (headers : List (List Nat × List Nat))
    (ss su asec ausec : Nat) (rb : Option (List NgxBuf)) (max_body_size : Nat)
    (allocs : List Bool) :
    ngx_akita_send_request_body (some rid) method uri host internal headers
        ss su asec ausec rb max_body_size allocs
      = (if (json_write_char (ngx_akita_write_body (json_write_char
          (json_write_time_literal (json_write_char (json_write_string_literal
            (json_write_char (json_write_time_literal (json_write_char
              (json_write_string_literal (json_write_char
                (ngx_akita_write_headers_list (json_write_char
                  (json_write_kv_strings (json_write_char (json_alloc allocs) 123)
                    [⟨bytes "request_id", rid, false⟩,
                     ⟨bytes "method", method, false⟩,
                     ⟨bytes "path", uri, false⟩,
                     ⟨bytes "host", host.getD [], host.isNone⟩,
                     ⟨bytes "nginx_internal", bytes "true", !internal⟩]) 44)
                  headers) 44)
                (bytes "request_start")) 58) ss su) 44)
            (bytes "request_arrived")) 58) asec ausec) 44)
          rb max_body_size) 125).oom
        then Except.error ()
        else Except.ok (json_write_char (ngx_akita_write_body (json_write_char
          (json_write_time_literal (json_write_char (json_write_string_literal
            (json_write_char (json_write_time_literal (json_write_char
              (json_write_string_literal (json_write_char
                (ngx_akita_write_headers_list (json_write_char
                  (json_write_kv_strings (json_write_char (json_alloc allocs) 123)
                    [⟨bytes "request_id", rid, false⟩,
                     ⟨bytes "method", method, false⟩,
                     ⟨bytes "path", uri, false⟩,
                     ⟨bytes "host", host.getD [], host.isNone⟩,
                     ⟨bytes "nginx_internal", bytes "true", !internal⟩]) 44)
                  headers) 44)
                (bytes "request_start")) 58) ss su) 44)
            (bytes "request_arrived")) 58) asec ausec) 44)
          rb max_body_size) 125)) := rfl

lemma docBytes_json_alloc (allocs : List Bool) :
    docBytes (json_alloc allocs) = [] := rfl

/-- C9: the request event document emitted by `ngx_akita_send_request_body`
equals `renderRequestDoc`, whose head pairs (`reqPairs`) contain the
`"host"` property exactly when the request carries a Host header
(`host = some h`) and the `"nginx_internal":"true"` property exactly when
the request is internally redispatched (`internal = true`); both are
omitted otherwise. -/
theorem C9_host_and_internal_presence (rid method uri : List Nat)
    (host : Option (List Nat)) (internal : Bool)
    (headers : List (List Nat × List Nat)) (ss su asec ausec : Nat)
    (ds : List (List Nat)) (max_body_size : Nat)
    (hbound : totalOf ds < 10 ^ 20) :
    Except.map docBytes (ngx_akita_send_request_body (some rid) method uri host
        internal headers ss su asec ausec (some (memChunks ds)) max_body_size [])
      = Except.ok (renderRequestDoc rid method uri host internal headers
          ss su asec ausec ds max_body_size) := by
  have hcomp := ((((((((((((((emitsOk_write_char 123).comp
    (emitsOk_kv [⟨bytes "request_id", rid, false⟩,
      ⟨bytes "method", method, false⟩,
      ⟨bytes "path", uri, false⟩,
      ⟨bytes "host", host.getD [], host.isNone⟩,
      ⟨bytes "nginx_internal", bytes "true", !internal⟩])).comp
    (emitsOk_write_char 44)).comp
    (emitsOk_headers_list headers)).comp
    (emitsOk_write_char 44)).comp
    (emitsOk_string_literal (bytes "request_start"))).comp
    (emitsOk_write_char 58)).comp
    (emitsOk_time ss su)).comp
    (emitsOk_write_char 44)).comp
    (emitsOk_string_literal (bytes "request_arrived"))).comp
    (emitsOk_write_char 58)).comp
    (emitsOk_time asec ausec)).comp
    (emitsOk_write_char 44)).comp
    (emitsOk_write_body max_body_size ds hbound)).comp
    (emitsOk_write_char 125)
  obtain ⟨hdoc, _, hoom, _⟩ := hcomp (json_alloc []) rfl
  dsimp only at hdoc hoom
  rw [send_chain, hoom]
  rw [show (json_alloc [] : JsonData).oom = false from rfl]
  simp only [Bool.false_eq_true, if_false, Except.map]
  rw [hdoc, docBytes_json_alloc,
    (emitKvAux_render [⟨bytes "request_id", rid, false⟩,
      ⟨bytes "method", method, false⟩,
      ⟨bytes "path", uri, false⟩,
      ⟨bytes "host", host.getD [], host.isNone⟩,
      ⟨bytes "nginx_internal", bytes "true", !internal⟩]).1,
    activePairs_req]
  unfold renderRequestDoc emitBody
  simp

/-- Witness for C9 at a request with a Host header, not internally
redispatched, one header and a two-byte body. -/
theorem C9_witness :
    Except.map docBytes (ngx_akita_send_request_body (some (bytes "id1"))
        (bytes "GET") (bytes "/p") (some (bytes "h.com")) false
        [(bytes "A", bytes "1")] 5 6 7 8
        (some (memChunks [bytes "ab"])) 10 [])
      = Except.ok (renderRequestDoc (bytes "id1") (bytes "GET") (bytes "/p")
          (some (bytes "h.com")) false [(bytes "A", bytes "1")] 5 6 7 8
          [bytes "ab"] 10) :=
  C9_host_and_internal_presence (bytes "id1") (bytes "GET") (bytes "/p")
    (some (bytes "h.com")) false [(bytes "A", bytes "1")] 5 6 7 8
    [bytes "ab"] 10 (by decide)

/-! ## Claim C10: content_length always equals the stored bytes -/

lemma lengthInv_step (j : JsonData) (res add : Nat) (bs : List Nat)
    (hlen : bs.length = add) (hinv : lengthInv j) :
    lengthInv (if (json_ensure_space j res).2
      then addLen (pushRaw (json_ensure_space j res).1 bs) add
      else (json_ensure_space j res).1) := by
  obtain ⟨hc, hs, hne⟩ := ensure_space_general j res
  by_cases h2 : (json_ensure_space j res).2
  · simp only [h2, if_true]
    unfold lengthInv at hinv ⊢
    rw [addLen_content_length, storedLen_addLen, pushRaw_content_length,
      storedLen_pushRaw _ _ (hne h2), hc, hs, hinv, hlen]
  · simp only [h2, Bool.false_eq_true, if_false]
    unfold lengthInv at hinv ⊢
    rw [hc, hs]
    exact hinv

lemma lengthInv_write_char (j : JsonData) (c : Nat) (h : lengthInv j) :
    lengthInv (json_write_char j c) := by
  rw [show json_write_char j c
    = (if (json_ensure_space j 1).2
       then addLen (pushRaw (json_ensure_space j 1).1 [c]) 1
       else (json_ensure_space j 1).1) from rfl]
  exact lengthInv_step j 1 1 [c] rfl h

lemma lengthInv_string_literal (j : JsonData) (s : List Nat) (h : lengthInv j) :
    lengthInv (json_write_string_literal j s) := by
  rw [show json_write_string_literal j s
    = (if (json_ensure_space j (escapeDelta s + s.length + 2)).2
       then addLen (pushRaw (json_ensure_space j (escapeDelta s + s.length + 2)).1
         ([34] ++ escapeJson s ++ [34])) (escapeDelta s + s.length + 2)
       else (json_ensure_space j (escapeDelta s + s.length + 2)).1) from rfl]
  refine lengthInv_step j _ _ _ ?_ h
  simp [escapeJson_length]
  omega

lemma lengthInv_snprintf (j : JsonData) (m : Nat) (out : List Nat)
    (h : lengthInv j) : lengthInv (json_snprintf j m out) := by
  rw [show json_snprintf j m out
    = (if (json_ensure_space j m).2
       then addLen (pushRaw (json_ensure_space j m).1 (out.take m))
         (out.take m).length
       else (json_ensure_space j m).1) from rfl]
  exact lengthInv_step j m (out.take m).length (out.take m) rfl h

lemma lengthInv_uint (j : JsonData) (key : List Nat) (n : Nat)
    (h : lengthInv j) : lengthInv (json_write_uint_property j key n) :=
  lengthInv_snprintf _ 20 (decimalBytes n)
    (lengthInv_write_char _ 58 (lengthInv_string_literal j key h))

lemma lengthInv_time (j : JsonData) (sec usec : Nat) (h : lengthInv j) :
    lengthInv (json_write_time_literal j sec usec) :=
  lengthInv_snprintf j time_format_len (timeFormatBytes sec usec) h

lemma lengthInv_kv_aux (kvs : List KvString) (nc : Bool) (j : JsonData)
    (h : lengthInv j) : lengthInv (json_write_kv_strings_aux j nc kvs) := by
  induction kvs generalizing nc j with
  | nil => simpa [json_write_kv_strings_aux] using h
  | cons kv rest ih =>
    by_cases hk : kv.key.length = 0
    · simpa [json_write_kv_strings_aux, hk] using h
    · by_cases ho : kv.omitted = true
      · have := ih nc j h
        simpa [json_write_kv_strings_aux, hk, ho] using this
      · have hstep : lengthInv (json_write_string_literal (json_write_char
            (json_write_string_literal
              (if nc then json_write_char j 44 else j) kv.key) 58) kv.value) := by
          refine lengthInv_string_literal _ _ (lengthInv_write_char _ 58
            (lengthInv_string_literal _ _ ?_))
          cases nc
          · simpa using h
          · simpa using lengthInv_write_char j 44 h
        have := ih true _ hstep
        simpa [json_write_kv_strings_aux, hk, ho] using this

lemma popAlloc_preserve (j : JsonData) :
    (popAlloc j).1.content_length = j.content_length
    ∧ storedLen (popAlloc j).1 = storedLen j := by
  unfold popAlloc
  cases j.allocs <;> simp [storedLen]

lemma lengthInv_popAlloc (j : JsonData) (h : lengthInv j) :
    lengthInv (popAlloc j).1 := by
  unfold lengthInv at h ⊢
  rw [(popAlloc_preserve j).1, (popAlloc_preserve j).2]
  exact h

lemma lengthInv_escapeWrite (j : JsonData) (t : Nat) (raw : List Nat)
    (ulen : Nat) (hlen : raw.length = ulen) (h : lengthInv j) :
    lengthInv (escapeWrite j t raw ulen).j := by
  have hshape : (escapeWrite j t raw ulen).j
      = (if (json_ensure_space j (ulen + escapeDelta raw)).2
         then addLen (pushRaw (json_ensure_space j (ulen + escapeDelta raw)).1
           (escapeJson raw)) (ulen + escapeDelta raw)
         else (json_ensure_space j (ulen + escapeDelta raw)).1) := by
    unfold escapeWrite
    by_cases h2 : (json_ensure_space j (ulen + escapeDelta raw)).2 <;>
      simp [h2]
  rw [hshape]
  refine lengthInv_step j _ _ _ ?_ h
  rw [escapeJson_length, hlen]

lemma lengthInv_escape_buf (j : JsonData) (max_size total : Nat) (buf : NgxBuf)
    (h : lengthInv j) : lengthInv (json_escape_buf j max_size total buf).j := by
  unfold json_escape_buf
  by_cases hge : total ≥ max_size
  · simpa [hge] using h
  · cases buf with
    | mem d l =>
      have hul : (d.take (if total + d.length > max_size
          then max_size - total else d.length)).length
          = (if total + d.length > max_size then max_size - total
             else d.length) := by
        rw [List.length_take]
        split_ifs <;> omega
      simpa [hge, bufSize] using lengthInv_escapeWrite j _ _ _ hul h
    | file size rr junk l =>
      have hpop := lengthInv_popAlloc j h
      by_cases hp : (popAlloc j).2
      · cases rr with
        | error e => simpa [hge, hp] using hpop
        | ok rd =>
          simpa [hge, hp, bufSize] using lengthInv_escapeWrite (popAlloc j).1 _ _ _
            (scratchContents_length rd junk _) hpop
      · simpa [hge, hp] using hpop
    | special l => simpa [hge] using h

lemma lengthInv_applyOp (op : WriterOp) (j : JsonData) (h : lengthInv j) :
    lengthInv (applyOp j op) := by
  cases op with
  | rawChar c => exact lengthInv_write_char j c h
  | stringLit s => exact lengthInv_string_literal j s h
  | uintProp key n => exact lengthInv_uint j key n h
  | timeLit sec usec => exact lengthInv_time j sec usec h
  | kvList kvs => exact lengthInv_kv_aux kvs false j h
  | fmt m out => exact lengthInv_snprintf j m out h
  | escapeBuf max_size total buf => exact lengthInv_escape_buf j max_size total buf h

lemma lengthInv_foldl (ops : List WriterOp) :
    ∀ j, lengthInv j → lengthInv (ops.foldl applyOp j) := by
  induction ops with
  | nil => intro j h; simpa using h
  | cons op rest ih =>
    intro j h
    rw [List.foldl_cons]
    exact ih _ (lengthInv_applyOp op j h)

/-- C10: for every allocation-outcome oracle and every sequence of public
writer operations applied to a fresh document, `content_length` equals the
total number of bytes actually stored across the chain segments — also
through allocation failures (which append nothing and add nothing) and
partially-capped `json_escape_buf` calls.  This is the count the code hands
to `ngx_akita_send_api_call` as the finished document's size. -/
theorem C10_content_length_matches_stored_bytes (alloc0 : List Bool)
    (ops : List WriterOp) :
    lengthInv (ops.foldl applyOp (json_alloc alloc0)) :=
  lengthInv_foldl ops (json_alloc alloc0) rfl

end Akita
